import Mathlib

/-!
Verification development for the indy repository: a shallow embedding of the
descriptor scanner (src/descriptors.py, src/scanner.py) and of the sweep
transaction builder (src/transactions.py, src/scripts.py), together with
theorems settling the specification claims.

Bytes are modelled as natural numbers (a byte string is a `List Nat`), and the
external cryptographic primitives (sha256, ripemd160, BIP-32 derivation, ECDSA
signing) and address-codec libraries (base58, bech32) are abstract function
parameters, matching the spec's treatment of them as external interfaces.
-/

namespace Indy

/-! ## Path model (src/descriptors.py, class Path)

The Python class stores a derivation-path template as a string containing the
placeholders a (account) and i (address index); operations are textual
replacement.  We model the template in parsed form as its component list
(section 4.2 of the spec fixes the grammar, under which the two views
coincide): each component is a literal (optionally hardened) or one of the two
placeholders.  Textual replacement of a placeholder becomes mapping it to a
literal. -/

inductive PathComponent where
  | num (n : Nat) (hardened : Bool)
  | acc (hardened : Bool)
  | idx (hardened : Bool)
  deriving DecidableEq, Repr

structure Path where
  components : List PathComponent
  deriving DecidableEq, Repr

def HARDENED_INDEX : Nat := 2 ^ 31

/-- Whether this path has the account level as a free variable
(Python: `self.path.find('a') >= 0`). -/
def Path.has_variable_account (p : Path) : Bool :=
  p.components.any fun c => match c with
    | .acc _ => true
    | _ => false

/-- Whether this path has the index level as a free variable
(Python: `self.path.find('i') >= 0`). -/
def Path.has_variable_index (p : Path) : Bool :=
  p.components.any fun c => match c with
    | .idx _ => true
    | _ => false

/-- Transform this path into a list of valid derivation indexes, substituting
the placeholders first (Python `Path.to_list`).  A hardened component n maps
to `HARDENED_INDEX + n`. -/
def Path.to_list (p : Path) (index account : Nat) : List Nat :=
  p.components.map fun c => match c with
    | .num n h => (if h then HARDENED_INDEX else 0) + n
    | .acc h => (if h then HARDENED_INDEX else 0) + account
    | .idx h => (if h then HARDENED_INDEX else 0) + index

/-- Get a new path with a fixed account (Python `Path.with_account`,
a textual replacement of the placeholder a). -/
def Path.with_account (p : Path) (account : Nat) : Path :=
  ⟨p.components.map fun c => match c with
    | .acc h => .num account h
    | c => c⟩

/-- Get a new path with a fixed index (Python `Path.with_index`,
a textual replacement of the placeholder i). -/
def Path.with_index (p : Path) (index : Nat) : Path :=
  ⟨p.components.map fun c => match c with
    | .idx h => .num index h
    | c => c⟩

instance : Inhabited Path := ⟨⟨[]⟩⟩

/-! ## Script codec (src/scripts.py) -/

def OP_0 : Nat := 0x00
def OP_DUP : Nat := 0x76
def OP_EQUAL : Nat := 0x87
def OP_EQUALVERIFY : Nat := 0x88
def OP_HASH160 : Nat := 0xa9
def OP_CHECKSIG : Nat := 0xac

def P2PKH_ADDRESS_HEADER : Nat := 0x00
def P2SH_ADDRESS_HEADER : Nat := 0x05

/-- Abstract cryptographic hash primitives (Python's hashlib interface): a
byte string to byte string map for sha256 and for ripemd160. -/
structure Crypto where
  sha256 : List Nat → List Nat
  ripemd160 : List Nat → List Nat

/-- Python: `hash160 = lambda bytes: ripemd160(sha256(bytes))`. -/
def hash160 (C : Crypto) (b : List Nat) : List Nat := C.ripemd160 (C.sha256 b)

inductive ScriptType where
  | LEGACY
  | COMPAT
  | SEGWIT
  deriving DecidableEq, Repr

/-- Python `_build_p2pkh_output_script`. -/
def build_p2pkh_output_script (pubkey_hash : List Nat) : List Nat :=
  [OP_DUP, OP_HASH160, pubkey_hash.length] ++ pubkey_hash ++ [OP_EQUALVERIFY, OP_CHECKSIG]

/-- Python `_build_p2sh_output_script`. -/
def build_p2sh_output_script (script_hash : List Nat) : List Nat :=
  [OP_HASH160, script_hash.length] ++ script_hash ++ [OP_EQUAL]

/-- Python `_build_segwit_output_script`. -/
def build_segwit_output_script (hash : List Nat) : List Nat :=
  [OP_0, hash.length] ++ hash

/-- Python `_build_p2pkh_input_script`. -/
def build_p2pkh_input_script (pubkey signature : List Nat) : List Nat :=
  [signature.length] ++ signature ++ [pubkey.length] ++ pubkey

/-- Python `_build_p2sh_input_script` (variadic in the source; its only call
site passes a single script). -/
def build_p2sh_input_script (arg : List Nat) : List Nat :=
  [arg.length] ++ arg

/-- Python `ScriptType.build_output_script`. -/
def ScriptType.build_output_script (t : ScriptType) (C : Crypto) (pubkey : List Nat) : List Nat :=
  match t with
  | .LEGACY => build_p2pkh_output_script (hash160 C pubkey)
  | .COMPAT => build_p2sh_output_script (hash160 C (build_segwit_output_script (hash160 C pubkey)))
  | .SEGWIT => build_segwit_output_script (hash160 C pubkey)

/-- Python `ScriptType.build_input_script`. -/
def ScriptType.build_input_script (t : ScriptType) (C : Crypto) (pubkey signature : List Nat) : List Nat :=
  match t with
  | .LEGACY => build_p2pkh_input_script pubkey signature
  | .COMPAT => build_p2sh_input_script (build_segwit_output_script (hash160 C pubkey))
  | .SEGWIT => []

/-- Python `ScriptType.build_witness`. -/
def ScriptType.build_witness (t : ScriptType) (pubkey signature : List Nat) : List (List Nat) :=
  match t with
  | .LEGACY => []
  | .COMPAT => [signature, pubkey]
  | .SEGWIT => [signature, pubkey]

/-- Python `build_output_script_from_address`, bech32 half: `bech32.decode`
returns a (witness version, program) pair, or failure; only witness version 0
produces a script (the source falls through to `return None` otherwise).  The
bech32 decoder (with the mainnet HRP bc already fixed) is an abstract
parameter, as the library is external to the repository. -/
def bech32_address_branch {α : Type} (bech32_decode : α → Option (Nat × List Nat))
    (address : α) : Option (List Nat) :=
  match bech32_decode address with
  | some (version, hash) =>
      if version = 0 then some (build_segwit_output_script hash) else none
  | none => none

/-- Python `build_output_script_from_address`: try base58check (version byte
0x00 gives P2PKH, 0x05 gives P2SH), then bech32, else None.  The base58check
decoder (returning the version byte followed by the payload, or failure) is an
abstract parameter.  A successful decode with an unrecognized version byte
falls through to the bech32 attempt, like the source.  A successful decode
with an EMPTY payload makes the source evaluate `decoded[0]`
(src/scripts.py line 85), which raises IndexError; the surrounding handler
catches only ValueError, so the exception escapes the function.  That escaped
exception is the `.error ()` outcome; the `.ok` outcomes are the source's
ordinary returns. -/
def build_output_script_from_address {α : Type} (b58decode_check : α → Option (List Nat))
    (bech32_decode : α → Option (Nat × List Nat)) (address : α) :
    Except Unit (Option (List Nat)) :=
  match b58decode_check address with
  | some [] => .error ()
  | some (version :: hash) =>
      if version = P2PKH_ADDRESS_HEADER then .ok (some (build_p2pkh_output_script hash))
      else if version = P2SH_ADDRESS_HEADER then .ok (some (build_p2sh_output_script hash))
      else .ok (bech32_address_branch bech32_decode address)
  | none => .ok (bech32_address_branch bech32_decode address)

/-! ## Wire serialization (src/transactions.py) -/

def VERSION : Nat := 2
def SEGWIT_MARKER : Nat := 0
def SEGWIT_FLAG : Nat := 1
def SEQUENCE : Nat := 0xffffffff
def LOCKTIME : Nat := 0
def SIGHASH_ALL : Nat := 0x01
def NON_SEGWIT_DUST : Nat := 546

/-- Little-endian fixed-width byte encoding (Python `int.to_bytes(len, 'little')`;
overflowing values are reduced, the source would raise instead). -/
def toBytesLE : Nat → Nat → List Nat
  | _, 0 => []
  | n, len + 1 => n % 256 :: toBytesLE (n / 256) len

/-- Python `_varint`. -/
def varint (number : Nat) : List Nat :=
  if number ≤ 0xfc then [number]
  else if number ≤ 0xffff then 0xfd :: toBytesLE number 2
  else if number ≤ 0xffffffff then 0xfe :: toBytesLE number 4
  else 0xff :: toBytesLE number 8

/-- Value of one hexadecimal digit given as an ASCII code (Python
`bytes.fromhex` digit handling). -/
def hexDigitVal (c : Nat) : Nat :=
  if 48 ≤ c ∧ c ≤ 57 then c - 48
  else if 97 ≤ c ∧ c ≤ 102 then c - 87
  else if 65 ≤ c ∧ c ≤ 70 then c - 55
  else 0

/-- Python `bytes.fromhex`: decode a hex string (given as ASCII codes) into
bytes, two digits per byte. -/
def fromHex : List Nat → List Nat
  | c1 :: c2 :: rest => (hexDigitVal c1 * 16 + hexDigitVal c2) :: fromHex rest
  | _ => []

/-- ASCII code of the lower-case hex digit of a value below 16 (Python
`bytes.hex()` digit rendering). -/
def hexDigitChr (n : Nat) : Nat :=
  if n < 10 then 48 + n else 87 + n

/-- Python `bytes.hex()`: render bytes as a lower-case hex string
(as ASCII codes). -/
def hexEncode (bytes : List Nat) : List Nat :=
  bytes.flatMap fun b => [hexDigitChr (b / 16), hexDigitChr (b % 16)]

/-- Data needed to spend a currently unspent transaction output
(src/scanner.py, class Utxo).  The txid is kept in its hex-string form
(ASCII codes), as in the source. -/
structure Utxo where
  txid : List Nat
  output_index : Nat
  amount_in_sat : Nat
  path : Path
  script_type : ScriptType
  deriving DecidableEq, Repr

instance : Inhabited Utxo := ⟨⟨[], 0, 0, ⟨[]⟩, .LEGACY⟩⟩

/-- A transaction input as held by the builder: the Utxo, the scriptSig bytes
and the witness stack. -/
abbrev TxInput := Utxo × List Nat × List (List Nat)

/-- A transaction output: amount and output script. -/
abbrev TxOutput := Nat × List Nat

/-- Python `_serialize_tx`: wire serialization, BIP-144 when witnesses are
included and some witness is non-empty.  `_reversed(bytes.fromhex(txid))`
becomes `(fromHex txid).reverse`. -/
def serialize_tx (inputs : List TxInput) (outputs : List TxOutput)
    (include_witness : Bool) : List Nat :=
  let segwit := include_witness && inputs.any fun i => !i.2.2.isEmpty
  toBytesLE VERSION 4
    ++ (if segwit then [SEGWIT_MARKER, SEGWIT_FLAG] else [])
    ++ varint inputs.length
    ++ (inputs.flatMap fun i =>
          (fromHex i.1.txid).reverse ++ toBytesLE i.1.output_index 4
            ++ varint i.2.1.length ++ i.2.1 ++ toBytesLE SEQUENCE 4)
    ++ varint outputs.length
    ++ (outputs.flatMap fun o => toBytesLE o.1 8 ++ varint o.2.length ++ o.2)
    ++ (if segwit then
          inputs.flatMap fun i =>
            varint i.2.2.length ++ i.2.2.flatMap fun item => varint item.length ++ item
        else [])
    ++ toBytesLE LOCKTIME 4

/-- Python `_serialize_tx_for_segwit_signing`: the BIP-143 digest preimage
(before the sighash-type suffix, which `Transaction.__init__` appends). -/
def serialize_tx_for_segwit_signing (C : Crypto) (input_index : Nat)
    (inputs : List TxInput) (outputs : List TxOutput) : List Nat :=
  let outpoints := inputs.flatMap fun i =>
    (fromHex i.1.txid).reverse ++ toBytesLE i.1.output_index 4
  let sequences := inputs.flatMap fun _ => toBytesLE SEQUENCE 4
  let chosen := inputs.getD input_index default
  toBytesLE VERSION 4
    ++ C.sha256 (C.sha256 outpoints)
    ++ C.sha256 (C.sha256 sequences)
    ++ (fromHex chosen.1.txid).reverse ++ toBytesLE chosen.1.output_index 4
    ++ varint chosen.2.1.length ++ chosen.2.1
    ++ toBytesLE chosen.1.amount_in_sat 8
    ++ toBytesLE SEQUENCE 4
    ++ C.sha256 (C.sha256
        (outputs.flatMap fun o => toBytesLE o.1 8 ++ varint o.2.length ++ o.2))
    ++ toBytesLE LOCKTIME 4

/-! ## Transaction construction (src/transactions.py, class Transaction) -/

/-- Abstract signing interface: BIP-32 key derivation (python bip32 library)
and deterministic ECDSA (coincurve); `sign` takes the private key and the
32-byte digest and returns the DER signature. -/
structure Signer where
  get_pubkey_from_path : List Nat → List Nat
  get_privkey_from_path : List Nat → List Nat
  sign : List Nat → List Nat → List Nat

/-- Outcomes of a failed `Transaction.__init__`: the two ValueError cases of
src/transactions.py lines 29-34, plus the IndexError escaping
`build_output_script_from_address` on an empty base58check payload, which the
constructor does not catch and therefore propagates. -/
inductive TxError where
  | invalid_address
  | dust
  | index_error
  deriving DecidableEq, Repr

structure Transaction where
  inputs : List TxInput
  outputs : List TxOutput
  deriving DecidableEq, Repr

/-- Per-input message digest of `Transaction.__init__` (lines 44-57): build
the signing inputs (empty scripts everywhere except position `index`, which
carries the P2PKH output script of the input's public key), serialize with
the legacy or the BIP-143 rule according to the script type, append
SIGHASH_ALL as u32 LE, and double-sha256.  The source compares `u == utxo`
(object identity); positions stand in for identity here.  The source calls
`utxo.path.to_list()` on the fully realized path, where the placeholder
arguments are irrelevant; they are instantiated with 0. -/
def tx_digest (C : Crypto) (S : Signer) (utxos : List Utxo) (outputs : List TxOutput)
    (index : Nat) : List Nat :=
  let utxo := utxos.getD index default
  let pubkey := S.get_pubkey_from_path (utxo.path.to_list 0 0)
  let script := ScriptType.LEGACY.build_output_script C pubkey
  let inputs : List TxInput :=
    utxos.enum.map fun ju => (ju.2, if ju.1 = index then script else [], [])
  let tx :=
    if utxo.script_type = ScriptType.LEGACY then
      serialize_tx inputs outputs false
    else
      serialize_tx_for_segwit_signing C index inputs outputs
  C.sha256 (C.sha256 (tx ++ toBytesLE SIGHASH_ALL 4))

/-- Per-input signing step of `Transaction.__init__` (lines 44-70): sign the
digest, append the sighash byte to the DER signature, and build the input
script and witness. -/
def build_input (C : Crypto) (S : Signer) (utxos : List Utxo) (outputs : List TxOutput)
    (index : Nat) : TxInput :=
  let utxo := utxos.getD index default
  let pubkey := S.get_pubkey_from_path (utxo.path.to_list 0 0)
  let privkey := S.get_privkey_from_path (utxo.path.to_list 0 0)
  let extended_signature := S.sign privkey (tx_digest C S utxos outputs index) ++ [SIGHASH_ALL]
  (utxo,
   utxo.script_type.build_input_script C pubkey extended_signature,
   utxo.script_type.build_witness pubkey extended_signature)

/-- The always-succeeding core of `Transaction.__init__`, after the address
and dust checks have passed: one output, and one signed input per Utxo in
order. -/
def mk_transaction (C : Crypto) (S : Signer) (utxos : List Utxo)
    (output_script : List Nat) (amount_in_sat : Nat) : Transaction :=
  let outputs : List TxOutput := [(amount_in_sat, output_script)]
  { inputs := (List.range utxos.length).map (build_input C S utxos outputs)
    outputs := outputs }

/-- Python `Transaction.__init__` entry checks (lines 29-36): decode the
destination address (ValueError when the decoder returns None; a propagated
IndexError when the decoder itself raises), then reject amounts below the
dust threshold, then construct. -/
def Transaction.build {α : Type} (C : Crypto) (S : Signer)
    (b58decode_check : α → Option (List Nat))
    (bech32_decode : α → Option (Nat × List Nat))
    (utxos : List Utxo) (address : α) (amount_in_sat : Nat) :
    Except TxError Transaction :=
  match build_output_script_from_address b58decode_check bech32_decode address with
  | .error () => .error .index_error
  | .ok none => .error .invalid_address
  | .ok (some output_script) =>
      if amount_in_sat < NON_SEGWIT_DUST then .error .dust
      else .ok (mk_transaction C S utxos output_script amount_in_sat)

/-- Python `Transaction.virtual_size`. -/
def Transaction.virtual_size (t : Transaction) : Nat :=
  (3 * (serialize_tx t.inputs t.outputs false).length
    + (serialize_tx t.inputs t.outputs true).length) / 4

/-- Python `Transaction.to_bytes`. -/
def Transaction.to_bytes (t : Transaction) : List Nat :=
  serialize_tx t.inputs t.outputs true

/-- Whether a construction attempt failed. -/
def buildFailed : Except TxError Transaction → Bool
  | .error _ => true
  | .ok _ => false

instance {ε α : Type} [DecidableEq ε] [DecidableEq α] : DecidableEq (Except ε α) := fun a b =>
  match a, b with
  | .error e1, .error e2 =>
    if h : e1 = e2 then isTrue (by rw [h]) else isFalse (fun hc => h (Except.error.inj hc))
  | .ok a1, .ok a2 =>
    if h : a1 = a2 then isTrue (by rw [h]) else isFalse (fun hc => h (Except.ok.inj hc))
  | .error _, .ok _ => isFalse (fun hc => Except.noConfusion hc)
  | .ok _, .error _ => isFalse (fun hc => Except.noConfusion hc)

/-- ASCII codes of the string "3QJmnh", the base58check encoding of the empty
byte string: its checksum verifies, and the decoded payload is empty. -/
def emptyPayloadAddress : List Nat := [51, 81, 74, 109, 110, 104]

/-- Concrete instantiation of the external base58check decoder interface on
the single input "3QJmnh": the python base58 library's `b58decode_check`
verifies its checksum and returns the empty byte string; every other input is
taken to fail.  This string is not an address: the empty decode has no
version byte at all. -/
def b58EmptyPayloadOnly : List Nat → Option (List Nat) :=
  fun a => if a = emptyPayloadAddress then some [] else none

/-- Concrete bech32 decoder that fails on every input ("3QJmnh" is not a
bc-HRP bech32 string). -/
def bech32AlwaysFail : List Nat → Option (Nat × List Nat) := fun _ => none

/-! ## Descriptor script iterator (src/descriptors.py, DescriptorScriptIterator)

The iterator state carries the grid cursor, the grid bounds, the two queues of
extra cells, the last diagonally emitted cell and the running script count.
In the source, `last_index` and `last_account` do not exist until the first
diagonal emission assigns them (calling `found_used_script` before that raises
AttributeError); the model stores them as an optional pair. -/

structure DSI where
  index : Nat
  account : Nat
  max_index : Nat
  max_account : Nat
  extra_indices : List (Nat × Nat)
  extra_accounts : List (Nat × Nat)
  last : Option (Nat × Nat)
  total_scripts : Nat
  address_gap : Nat
  account_gap : Nat
  deriving DecidableEq, Repr

/-- Python `DescriptorScriptIterator.__init__`. -/
def DSI.init (p : Path) (address_gap account_gap : Nat) : DSI :=
  let mi := if p.has_variable_index then address_gap else 0
  let ma := if p.has_variable_account then account_gap else 0
  { index := 0
    account := 0
    max_index := mi
    max_account := ma
    extra_indices := []
    extra_accounts := []
    last := none
    total_scripts := (mi + 1) * (ma + 1)
    address_gap := address_gap
    account_gap := account_gap }

/-- Cursor advance of `next_script` (src/descriptors.py lines 160-168): on the
border, restart at the top of the next diagonal; otherwise go one step down
the current diagonal. -/
def stepCell (mi ma : Nat) (c : Nat × Nat) : Nat × Nat :=
  if c.1 = 0 ∨ c.2 = ma then
    let diagonal_total := c.1 + c.2 + 1
    (min diagonal_total mi, diagonal_total - min diagonal_total mi)
  else
    (c.1 - 1, c.2 + 1)

/-- Python `DescriptorScriptIterator.next_script`, at cell granularity: pop a
queued extra cell if any, otherwise emit the cursor cell (recording it as
last) and advance diagonally; None once the cursor leaves the rectangle.  The
source renders the returned cell through `_script_at`; rendering is split off
as `script_at` below. -/
def DSI.next (s : DSI) : Option ((Nat × Nat) × DSI) :=
  match s.extra_indices with
  | c :: rest => some (c, { s with extra_indices := rest })
  | [] =>
    match s.extra_accounts with
    | c :: rest => some (c, { s with extra_accounts := rest })
    | [] =>
      if s.index > s.max_index ∨ s.account > s.max_account then none
      else
        let cell := (s.index, s.account)
        let c' := stepCell s.max_index s.max_account cell
        some (cell, { s with last := some cell, index := c'.1, account := c'.2 })

/-- Python `DescriptorScriptIterator._script_at`: render the script at a
specific index and account.  The BIP-32 public-key derivation is the abstract
`keyfun`; the source calls `path.to_list(index)` with the account placeholder
already substituted, so the account argument of `to_list` is irrelevant and is
instantiated with 0. -/
def script_at (C : Crypto) (keyfun : List Nat → List Nat) (p : Path) (t : ScriptType)
    (index account : Nat) : List Nat × Path × Nat × ScriptType :=
  let path := p.with_account account
  let pubkey := keyfun (path.to_list index 0)
  (t.build_output_script C pubkey, path, index, t)

/-- Address-gap half of `found_used_script` (lines 176-181): for each i in
[last_index+1, last_index+address_gap] beyond max_index whose cell
(i, last_account) is not already queued, append the cell (i, self.account) --
the account of the advanced cursor, not of the last emission -- and count one
more script. -/
def fus_index_loop (s : DSI) (last_index last_account : Nat) : DSI :=
  (List.range' (last_index + 1) s.address_gap).foldl
    (fun acc i =>
      if i > acc.max_index ∧ (i, last_account) ∉ acc.extra_indices then
        { acc with
            extra_indices := acc.extra_indices ++ [(i, acc.account)]
            total_scripts := acc.total_scripts + 1 }
      else acc)
    s

/-- One iteration of the account-gap while loop of `found_used_script`
(lines 184-189). -/
def fus_account_step (s : DSI) : DSI :=
  let ma := s.max_account + 1
  let current_diagonal := s.index + s.account
  { s with
      max_account := ma
      total_scripts := s.total_scripts + s.max_index + 1
      extra_accounts := s.extra_accounts ++ (List.range (current_diagonal - ma)).map fun i => (i, ma) }

/-- Account-gap half of `found_used_script`: while
`max_account ≤ last_account + account_gap`, unlock one more account row.  The
while loop is run on exactly enough fuel: each iteration increases
`max_account` by one, so `last_account + account_gap + 1 - max_account`
iterations reach the exit condition precisely. -/
def fus_account_loop : Nat → DSI → Nat → DSI
  | 0, s, _ => s
  | fuel + 1, s, last_account =>
      if s.max_account ≤ last_account + s.account_gap then
        fus_account_loop fuel (fus_account_step s) last_account
      else s

/-- Python `DescriptorScriptIterator.found_used_script`.  With no recorded
last emission the source raises AttributeError; the model returns the state
unchanged (all claims concern calls made after an emission). -/
def DSI.found_used_script (s : DSI) : DSI :=
  match s.last with
  | none => s
  | some (last_index, last_account) =>
      let s1 := fus_index_loop s last_index last_account
      fus_account_loop (last_account + s1.account_gap + 1 - s1.max_account) s1 last_account

/-- Drive the iterator, collecting the emitted cells and the final state. -/
def DSI.runState (s : DSI) : Nat → List (Nat × Nat) × DSI
  | 0 => ([], s)
  | fuel + 1 =>
    match s.next with
    | none => ([], s)
    | some (c, s') =>
      let r := s'.runState fuel
      (c :: r.1, r.2)

/-- The cells emitted by `fuel` calls to `next`. -/
def DSI.run (s : DSI) (fuel : Nat) : List (Nat × Nat) := (s.runState fuel).1

/-- Step to the post-state of one `next` call (identity when exhausted). -/
def stepD (s : DSI) : DSI :=
  match s.next with
  | some p => p.2
  | none => s

/-! ## Scanner model (src/scanner.py) -/

inductive ElectrumMethod where
  | get_history
  | list_unspent
  deriving DecidableEq, Repr

/-- Python `_electrum_script_hash`: the hex-encoded byte-reversed sha256 of
the output script. -/
def electrum_script_hash (sha256 : List Nat → List Nat) (script : List Nat) : List Nat :=
  hexEncode (sha256 script).reverse

/-- Modelled from the spec: the candidate-script object consumed by
src/scanner.py (`script.program`, `script.full_path()`, `script.type()`,
`script.set_as_used()`); the class providing these members is not part of
src/, so its data is taken from spec section 4.5: the rendered output script,
the originating template together with the candidate's account and index, and
the script type. -/
structure Candidate where
  program : List Nat
  path : Path
  account : Nat
  index : Nat
  script_type : ScriptType
  deriving DecidableEq, Repr

/-- Modelled from the spec: `script.full_path()` is the candidate's template
with the candidate's account and index substituted
(spec section 4.5 step 5:
`path = candidate.path.with_account(candidate.account).with_index(candidate.index)`). -/
def Candidate.full_path (c : Candidate) : Path :=
  (c.path.with_account c.account).with_index c.index

/-- One `blockchain.scripthash.listunspent` response entry
(tx_hash, tx_pos, value). -/
structure UnspentEntry where
  tx_hash : List Nat
  tx_pos : Nat
  value : Nat
  deriving DecidableEq, Repr

/-- Batch-pulling loop of `scan_master_key` (src/scanner.py lines 49-54):
pull scripts until batch_size are collected or the iterator is exhausted. -/
def pull_batch {ι : Type} (next : ι → Option (Candidate × ι)) :
    Nat → ι → List Candidate × ι
  | 0, it => ([], it)
  | n + 1, it =>
    match next it with
    | none => ([], it)
    | some (c, it') =>
      let r := pull_batch next n it'
      (c :: r.1, r.2)

/-- Observable result of one iteration of the scan loop of
`scan_master_key`, at request granularity. -/
structure ScanIterResult (ι : Type) where
  scripts : List Candidate
  history_request : List (ElectrumMethod × List Nat)
  used_scripts : List Candidate
  unspent_request : List (ElectrumMethod × List Nat)
  new_utxos : List Utxo
  iter : ι

/-- One iteration of the scan loop of `scan_master_key` (src/scanner.py
lines 46-106): pull a batch, probe get_history for every pulled script hash,
mark the scripts with non-empty history used (in response order, before the
second probe), probe listunspent for exactly the used ones, and convert the
entries into Utxos.  The two oracles are abstract functions of the script
hash, applied positionally to the request list as the batched transport does;
`mark_used` is the abstract effect of `script.set_as_used()` on the iterator
state.  The user-facing progress and logging of the source are omitted. -/
def scan_iteration {ι β : Type} (sha256 : List Nat → List Nat)
    (history : List Nat → List β) (listunspent : List Nat → List UnspentEntry)
    (next : ι → Option (Candidate × ι)) (mark_used : ι → Candidate → ι)
    (batch_size : Nat) (it : ι) : ScanIterResult ι :=
  let pulled := pull_batch next batch_size it
  let scripts := pulled.1
  let request₁ := scripts.map fun s =>
    (ElectrumMethod.get_history, electrum_script_hash sha256 s.program)
  let responses₁ := request₁.map fun r => history r.2
  let used := (scripts.zip responses₁).foldl
    (fun st sr => if sr.2.isEmpty then st else (st.1 ++ [sr.1], mark_used st.2 sr.1))
    ([], pulled.2)
  let request₂ := used.1.map fun s =>
    (ElectrumMethod.list_unspent, electrum_script_hash sha256 s.program)
  let responses₂ := request₂.map fun r => listunspent r.2
  let utxos := (used.1.zip responses₂).foldl
    (fun acc sr => acc ++ sr.2.map fun e =>
      { txid := e.tx_hash
        output_index := e.tx_pos
        amount_in_sat := e.value
        path := sr.1.full_path
        script_type := sr.1.script_type })
    ([] : List Utxo)
  { scripts := scripts
    history_request := request₁
    used_scripts := used.1
    unspent_request := request₂
    new_utxos := utxos
    iter := used.2 }

/-! ## Sequential single-descriptor scan (for the gap-chain claim)

With batching disabled the scanner emits one script at a time and applies
set_used immediately when the script's history is non-empty (the ordering
contract of spec section 4.5).  On a template without a variable account the
rendered script depends only on the address index, so the usage oracle is
keyed by the index. -/

/-- One step of the sequential scan: emit the next cell; when its script is
reported used, apply found_used_script. -/
def scanStep (used : Nat → Bool) (s : DSI) : Option ((Nat × Nat) × DSI) :=
  match s.next with
  | none => none
  | some (c, s') => some (c, if used c.1 then s'.found_used_script else s')

/-- Cells emitted by `fuel` steps of the sequential scan. -/
def scanEmits (used : Nat → Bool) (s : DSI) : Nat → List (Nat × Nat)
  | 0 => []
  | fuel + 1 =>
    match scanStep used s with
    | none => []
    | some (c, s') => c :: scanEmits used s' fuel

/-- The catalog path `m/0'/0/i` (BRD/Hodl/Coin/Multibit external): a variable
index and no variable account. -/
def brdExternalPath : Path := ⟨[.num 0 true, .num 0 false, .idx false]⟩

/-- The catalog path `m/0'/0'/i'` (Bitcoin Core): a hardened variable index
and no variable account. -/
def bitcoinCorePath : Path := ⟨[.num 0 true, .num 0 true, .idx true]⟩

/-- Usage oracle for the gap-chain scenario: the scripts at address indices
1, 2 and 3 are used (a chain with all gaps equal to 1). -/
def used123 : Nat → Bool := fun i => decide (1 ≤ i ∧ i ≤ 3)

/-- The state the sequential gap-chain scan reaches after two emissions, with
its ever-growing script counter as a parameter. -/
def loopState (t : Nat) : DSI :=
  { index := 1
    account := 1
    max_index := 1
    max_account := 1
    extra_indices := [(2, 1)]
    extra_accounts := [(0, 1)]
    last := some (1, 0)
    total_scripts := t
    address_gap := 1
    account_gap := 0 }

/-! ## The diagonal order (spec sections 4.3 and 8, invariants 2 and 3)

These definitions follow the specification's words, not the source: they give
the declarative description of the enumeration order against which the
iterator's imperative walk is compared. -/

/-- Cells of Manhattan diagonal s inside the rectangle [0, mi] x [0, ma],
by ascending account (spec-side characterization). -/
def diagCells (mi ma s : Nat) : List (Nat × Nat) :=
  (List.range' (s - min s mi) (min s ma + 1 - (s - min s mi))).map fun a => (s - a, a)

/-- The spec's diagonal order over the whole rectangle: diagonals by ascending
Manhattan distance, each by ascending account (spec-side characterization). -/
def diagEnum (mi ma : Nat) : List (Nat × Nat) :=
  (List.range (mi + ma + 1)).flatMap (diagCells mi ma)

/-- Strict ordering: first by index+account, then by account. -/
def lexLt (x y : Nat × Nat) : Prop :=
  x.1 + x.2 < y.1 + y.2 ∨ (x.1 + x.2 = y.1 + y.2 ∧ x.2 < y.2)

instance : IsTrans (Nat × Nat) lexLt :=
  ⟨by
    intro a b c hab hbc
    unfold lexLt at *
    omega⟩

lemma mem_diagCells {mi ma s : Nat} {c : Nat × Nat} :
    c ∈ diagCells mi ma s ↔ c.1 + c.2 = s ∧ c.1 ≤ mi ∧ c.2 ≤ ma := by
  obtain ⟨i, a⟩ := c
  unfold diagCells
  simp only [List.mem_map, List.mem_range'_1, Prod.mk.injEq]
  constructor
  · rintro ⟨b, hb, rfl, rfl⟩
    omega
  · rintro ⟨hs, hi, ha⟩
    exact ⟨a, by omega, by omega, rfl⟩

lemma mem_diagEnum {mi ma : Nat} {c : Nat × Nat} :
    c ∈ diagEnum mi ma ↔ c.1 ≤ mi ∧ c.2 ≤ ma := by
  unfold diagEnum
  simp only [List.mem_flatMap, List.mem_range, mem_diagCells]
  constructor
  · rintro ⟨s, _, _, hi, ha⟩
    exact ⟨hi, ha⟩
  · rintro ⟨hi, ha⟩
    exact ⟨c.1 + c.2, by omega, rfl, hi, ha⟩

lemma chain'_range'_bounded (S : Nat → Nat → Prop) :
    ∀ n a, (∀ k, a ≤ k → k + 1 < a + n → S k (k + 1)) →
      List.Chain' S (List.range' a n) := by
  intro n
  induction n with
  | zero => intro a _; exact List.chain'_nil
  | succ n ih =>
    intro a h
    rw [List.range'_succ]
    cases n with
    | zero => exact List.chain'_singleton a
    | succ m =>
      rw [List.range'_succ]
      rw [List.chain'_cons]
      constructor
      · exact h a le_rfl (by omega)
      · have := ih (a + 1) (fun k hk hk2 => h k (by omega) (by omega))
        rwa [List.range'_succ] at this

lemma chain'_diagCells {mi ma s : Nat} (h : s ≤ mi + ma) :
    List.Chain' (fun x y => stepCell mi ma x = y) (diagCells mi ma s) := by
  unfold diagCells
  rw [List.chain'_map]
  apply chain'_range'_bounded
  intro k hk hk2
  have hk1 : s - k ≠ 0 := by omega
  have hk3 : k ≠ ma := by omega
  show stepCell mi ma (s - k, k) = (s - (k + 1), k + 1)
  unfold stepCell
  rw [if_neg]
  · show (s - k - 1, k + 1) = (s - (k + 1), k + 1)
    rw [show s - k - 1 = s - (k + 1) from by omega]
  · show ¬(s - k = 0 ∨ k = ma)
    simp only [not_or]
    exact ⟨hk1, hk3⟩

lemma diagCells_eq_cons {mi ma s : Nat} (h : s ≤ mi + ma) :
    ∃ t, diagCells mi ma s = (min s mi, s - min s mi) :: t := by
  unfold diagCells
  obtain ⟨n, hn⟩ : ∃ n, min s ma + 1 - (s - min s mi) = n + 1 :=
    ⟨min s ma - (s - min s mi), by omega⟩
  rw [hn, List.range'_succ, List.map_cons]
  refine ⟨List.map (fun a => (s - a, a)) (List.range' (s - min s mi + 1) n), ?_⟩
  rw [show s - (s - min s mi) = min s mi from by omega]

lemma range'_getLast? : ∀ (n a : Nat), 0 < n →
    (List.range' a n).getLast? = some (a + n - 1) := by
  intro n
  induction n with
  | zero => omega
  | succ m ih =>
    intro a _
    rw [List.range'_succ]
    cases m with
    | zero =>
      rw [List.range'_zero]
      rfl
    | succ k =>
      rw [List.range'_succ, List.getLast?_cons_cons, ← List.range'_succ]
      rw [ih (a + 1) (by omega)]
      congr 1
      omega

lemma diagCells_getLast? {mi ma s : Nat} (h : s ≤ mi + ma) :
    (diagCells mi ma s).getLast? = some (s - min s ma, min s ma) := by
  unfold diagCells
  rw [List.getLast?_map, range'_getLast? _ _ (by omega)]
  rw [show s - min s mi + (min s ma + 1 - (s - min s mi)) - 1 = min s ma from by omega]
  rfl

lemma stepCell_diag_link {mi ma s : Nat} (h : s ≤ mi + ma) :
    stepCell mi ma (s - min s ma, min s ma) = (min (s + 1) mi, s + 1 - min (s + 1) mi) := by
  unfold stepCell
  rw [if_pos]
  · show (min (s - min s ma + min s ma + 1) mi,
        s - min s ma + min s ma + 1 - min (s - min s ma + min s ma + 1) mi) =
      (min (s + 1) mi, s + 1 - min (s + 1) mi)
    rw [show s - min s ma + min s ma + 1 = s + 1 from by omega]
  · show s - min s ma = 0 ∨ min s ma = ma
    omega

lemma chain'_diagEnum_aux {mi ma : Nat} :
    ∀ (k s : Nat), s + k = mi + ma →
      List.Chain' (fun x y => stepCell mi ma x = y)
        ((List.range' s (k + 1)).flatMap (diagCells mi ma)) := by
  intro k
  induction k with
  | zero =>
    intro s hs
    rw [List.range'_succ, List.range'_zero]
    simp only [List.flatMap_cons, List.flatMap_nil, List.append_nil]
    exact chain'_diagCells (by omega)
  | succ k ih =>
    intro s hs
    rw [List.range'_succ, List.flatMap_cons]
    rw [List.chain'_append]
    refine ⟨chain'_diagCells (by omega), ih (s + 1) (by omega), ?_⟩
    intro x hx y hy
    rw [Option.mem_def, diagCells_getLast? (by omega), Option.some.injEq] at hx
    obtain ⟨t, ht⟩ := @diagCells_eq_cons mi ma (s + 1) (by omega)
    rw [List.range'_succ, List.flatMap_cons, ht] at hy
    rw [Option.mem_def] at hy
    simp only [List.cons_append, List.head?_cons, Option.some.injEq] at hy
    rw [← hx, ← hy]
    exact stepCell_diag_link (by omega)

lemma chain'_diagEnum (mi ma : Nat) :
    List.Chain' (fun x y => stepCell mi ma x = y) (diagEnum mi ma) := by
  unfold diagEnum
  rw [List.range_eq_range']
  exact chain'_diagEnum_aux (mi + ma) 0 (by omega)

lemma lexLt_stepCell (mi ma : Nat) (c : Nat × Nat) : lexLt c (stepCell mi ma c) := by
  obtain ⟨i, a⟩ := c
  by_cases hc : (i, a).1 = 0 ∨ (i, a).2 = ma
  · have hstep : stepCell mi ma (i, a) =
        (min (i + a + 1) mi, i + a + 1 - min (i + a + 1) mi) := by
      unfold stepCell
      rw [if_pos hc]
    rw [hstep]
    left
    show i + a < min (i + a + 1) mi + (i + a + 1 - min (i + a + 1) mi)
    omega
  · have hstep : stepCell mi ma (i, a) = (i - 1, a + 1) := by
      unfold stepCell
      rw [if_neg hc]
    rw [hstep]
    have hi : i ≠ 0 := fun hz => hc (Or.inl hz)
    right
    refine ⟨?_, ?_⟩
    · show i + a = i - 1 + (a + 1)
      omega
    · show a < a + 1
      omega

lemma chain'_lexLt_diagEnum (mi ma : Nat) : List.Chain' lexLt (diagEnum mi ma) := by
  apply List.Chain'.imp _ (chain'_diagEnum mi ma)
  intro a b hab
  rw [← hab]
  exact lexLt_stepCell mi ma a

lemma pairwise_lexLt_diagEnum (mi ma : Nat) : List.Pairwise lexLt (diagEnum mi ma) :=
  List.chain'_iff_pairwise.mp (chain'_lexLt_diagEnum mi ma)

lemma nodup_diagEnum (mi ma : Nat) : (diagEnum mi ma).Nodup := by
  apply List.Pairwise.imp _ (pairwise_lexLt_diagEnum mi ma)
  intro a b hab
  intro hEq
  subst hEq
  unfold lexLt at hab
  omega

lemma diagEnum_length (mi ma : Nat) :
    (diagEnum mi ma).length = (mi + 1) * (ma + 1) := by
  have hperm : (diagEnum mi ma).Perm ((List.range (mi + 1)) ×ˢ (List.range (ma + 1))) := by
    rw [List.perm_ext_iff_of_nodup (nodup_diagEnum mi ma)
      ((List.nodup_range _).product (List.nodup_range _))]
    intro c
    rw [mem_diagEnum]
    obtain ⟨i, a⟩ := c
    rw [List.mem_product]
    simp only [List.mem_range]
    omega
  rw [hperm.length_eq, List.length_product, List.length_range, List.length_range]

lemma diagEnum_getLast? (mi ma : Nat) : (diagEnum mi ma).getLast? = some (mi, ma) := by
  unfold diagEnum
  rw [List.range_succ, List.flatMap_append]
  rw [List.getLast?_append]
  simp only [List.flatMap_cons, List.flatMap_nil, List.append_nil]
  rw [diagCells_getLast? (le_refl (mi + ma))]
  have : mi + ma - min (mi + ma) ma = mi ∧ min (mi + ma) ma = ma := by omega
  rw [this.1, this.2]
  rfl

lemma diagEnum_head? (mi ma : Nat) : (diagEnum mi ma).head? = some (0, 0) := by
  unfold diagEnum
  rw [List.range_eq_range', List.range'_succ, List.flatMap_cons, List.head?_append]
  have h0 : diagCells mi ma 0 = [(0, 0)] := by
    unfold diagCells
    simp
  rw [h0]
  rfl

/-! ## The iterator's walk follows the chain -/

/-- Behaviour of `next` with both extra queues empty and the cursor inside
the rectangle: emit the cursor cell, record it as last, advance diagonally. -/
lemma next_no_extras (s : DSI) (h1 : s.extra_indices = []) (h2 : s.extra_accounts = [])
    (h3 : ¬(s.index > s.max_index ∨ s.account > s.max_account)) :
    s.next = some ((s.index, s.account),
      { s with last := some (s.index, s.account),
               index := (stepCell s.max_index s.max_account (s.index, s.account)).1,
               account := (stepCell s.max_index s.max_account (s.index, s.account)).2 }) := by
  obtain ⟨idx, acct, mi, ma, ei, ea, lst, ts, ag, acg⟩ := s
  simp only at h1 h2 h3 ⊢
  subst h1
  subst h2
  simp only [DSI.next]
  rw [if_neg h3]

/-- Behaviour of `next` with a queued extra-index cell: pop it, leaving the
rest of the state (in particular last and the cursor) unchanged. -/
lemma next_pop_extra_index (s : DSI) (c : Nat × Nat) (rest : List (Nat × Nat))
    (h1 : s.extra_indices = c :: rest) :
    s.next = some (c, { s with extra_indices := rest }) := by
  obtain ⟨idx, acct, mi, ma, ei, ea, lst, ts, ag, acg⟩ := s
  simp only at h1 ⊢
  subst h1
  simp only [DSI.next]

/-- Behaviour of `next` with an empty extra-index queue and a queued
extra-account cell: pop it, leaving the rest of the state unchanged. -/
lemma next_pop_extra_account (s : DSI) (c : Nat × Nat) (rest : List (Nat × Nat))
    (h1 : s.extra_indices = []) (h2 : s.extra_accounts = c :: rest) :
    s.next = some (c, { s with extra_accounts := rest }) := by
  obtain ⟨idx, acct, mi, ma, ei, ea, lst, ts, ag, acg⟩ := s
  simp only at h1 h2 ⊢
  subst h1
  subst h2
  simp only [DSI.next]

/-- Behaviour of `next` with empty queues and the cursor out of the
rectangle: exhausted. -/
lemma next_none (s : DSI) (h1 : s.extra_indices = []) (h2 : s.extra_accounts = [])
    (h3 : s.index > s.max_index ∨ s.account > s.max_account) :
    s.next = none := by
  obtain ⟨idx, acct, mi, ma, ei, ea, lst, ts, ag, acg⟩ := s
  simp only at h1 h2 h3 ⊢
  subst h1
  subst h2
  simp only [DSI.next]
  rw [if_pos h3]

lemma runState_succ (s : DSI) (fuel : Nat) :
    s.runState (fuel + 1) =
      match s.next with
      | none => ([], s)
      | some (c, s') =>
        let r := s'.runState fuel
        (c :: r.1, r.2) := rfl

/-- When both extra queues are empty and the cursor sits on a cell heading a
step-chain of in-rectangle cells whose final step leaves the rectangle, the
iterator emits exactly that chain and is then exhausted. -/
lemma runState_follows_chain :
    ∀ (l : List (Nat × Nat)) (c : Nat × Nat) (s : DSI),
      s.extra_indices = [] → s.extra_accounts = [] →
      s.index = c.1 → s.account = c.2 →
      List.Chain' (fun x y => stepCell s.max_index s.max_account x = y) (c :: l) →
      (∀ x ∈ c :: l, x.1 ≤ s.max_index ∧ x.2 ≤ s.max_account) →
      (s.max_index < (stepCell s.max_index s.max_account ((c :: l).getLast (List.cons_ne_nil c l))).1
        ∨ s.max_account < (stepCell s.max_index s.max_account ((c :: l).getLast (List.cons_ne_nil c l))).2) →
      (s.runState (l.length + 1)).1 = c :: l ∧ ((s.runState (l.length + 1)).2).next = none := by
  intro l
  induction l with
  | nil =>
    intro c s h1 h2 h3 h4 _ hmem hlast
    have hin := hmem c (List.mem_singleton.mpr rfl)
    have hnext := next_no_extras s h1 h2 (by omega)
    rw [h3, h4, Prod.mk.eta] at hnext
    simp only [List.getLast_singleton] at hlast
    constructor
    · show (DSI.runState s (0 + 1)).1 = [c]
      rw [runState_succ, hnext]
      rfl
    · show ((DSI.runState s (0 + 1)).2).next = none
      rw [runState_succ, hnext]
      apply next_none
      · exact h1
      · exact h2
      · show s.max_index < (stepCell s.max_index s.max_account c).1
          ∨ s.max_account < (stepCell s.max_index s.max_account c).2
        exact hlast
  | cons c2 l2 ih =>
    intro c s h1 h2 h3 h4 hchain hmem hlast
    have hin := hmem c (List.mem_cons_self c (c2 :: l2))
    have hstep : stepCell s.max_index s.max_account c = c2 := (List.chain'_cons.mp hchain).1
    have hnext := next_no_extras s h1 h2 (by omega)
    rw [h3, h4, Prod.mk.eta] at hnext
    have hrec := ih c2
      { s with last := some c,
               index := (stepCell s.max_index s.max_account c).1,
               account := (stepCell s.max_index s.max_account c).2 }
      h1 h2
      (by show (stepCell s.max_index s.max_account c).1 = c2.1; rw [hstep])
      (by show (stepCell s.max_index s.max_account c).2 = c2.2; rw [hstep])
      (List.chain'_cons.mp hchain).2
      (fun x hx => hmem x (List.mem_cons_of_mem _ hx))
      (by
        rw [List.getLast_cons (List.cons_ne_nil c2 l2)] at hlast
        exact hlast)
    constructor
    · show (DSI.runState s (l2.length + 1 + 1)).1 = c :: c2 :: l2
      rw [runState_succ, hnext]
      show c :: (DSI.runState _ (l2.length + 1)).1 = c :: c2 :: l2
      rw [hrec.1]
    · show ((DSI.runState s (l2.length + 1 + 1)).2).next = none
      rw [runState_succ, hnext]
      show ((DSI.runState _ (l2.length + 1)).2).next = none
      exact hrec.2

lemma diagEnum_eq_cons (mi ma : Nat) :
    diagEnum mi ma = (0, 0) :: (diagEnum mi ma).tail := by
  have hne : diagEnum mi ma ≠ [] := by
    intro h
    have := diagEnum_head? mi ma
    rw [h] at this
    cases this
  have hh := List.head?_eq_head hne
  rw [diagEnum_head? mi ma] at hh
  have hh' : (diagEnum mi ma).head hne = (0, 0) := Option.some.inj hh.symm
  conv_lhs => rw [← List.head_cons_tail (diagEnum mi ma) hne]
  rw [hh']

lemma diagEnum_getLast (mi ma : Nat) (h : diagEnum mi ma ≠ []) :
    (diagEnum mi ma).getLast h = (mi, ma) := by
  have := List.getLast?_eq_getLast (diagEnum mi ma) h
  rw [diagEnum_getLast? mi ma] at this
  injection this with h'
  exact h'.symm

lemma stepCell_exit (mi ma : Nat) :
    stepCell mi ma (mi, ma) = (min (mi + ma + 1) mi, mi + ma + 1 - min (mi + ma + 1) mi) := by
  unfold stepCell
  rw [if_pos (Or.inr rfl)]

/-- From any cursor position on the diagonal enumeration (with empty queues),
the iterator emits exactly the remaining suffix of the enumeration and is then
exhausted. -/
lemma runState_diagEnum_suffix (s : DSI) (l1 l2 : List (Nat × Nat)) (c : Nat × Nat)
    (hdec : diagEnum s.max_index s.max_account = l1 ++ c :: l2)
    (h1 : s.extra_indices = []) (h2 : s.extra_accounts = [])
    (h3 : s.index = c.1) (h4 : s.account = c.2) :
    (s.runState (l2.length + 1)).1 = c :: l2 ∧ ((s.runState (l2.length + 1)).2).next = none := by
  have hchainAll := chain'_diagEnum s.max_index s.max_account
  rw [hdec] at hchainAll
  have hchain := (List.chain'_append.mp hchainAll).2.1
  have hmem : ∀ x ∈ c :: l2, x.1 ≤ s.max_index ∧ x.2 ≤ s.max_account := by
    intro x hx
    have hx' : x ∈ diagEnum s.max_index s.max_account := by
      rw [hdec]
      exact List.mem_append.mpr (Or.inr hx)
    exact mem_diagEnum.mp hx'
  have hq : (c :: l2).getLast? = some (s.max_index, s.max_account) := by
    have hg := diagEnum_getLast? s.max_index s.max_account
    rw [hdec, List.getLast?_append] at hg
    rw [List.getLast?_eq_getLast (c :: l2) (List.cons_ne_nil c l2)] at hg ⊢
    exact hg
  have hlastEq : (c :: l2).getLast (List.cons_ne_nil c l2) = (s.max_index, s.max_account) := by
    have := List.getLast?_eq_getLast (c :: l2) (List.cons_ne_nil c l2)
    rw [this] at hq
    exact Option.some.inj hq
  apply runState_follows_chain l2 c s h1 h2 h3 h4 hchain hmem
  rw [hlastEq, stepCell_exit]
  right
  show s.max_account < s.max_index + s.max_account + 1 - min (s.max_index + s.max_account + 1) s.max_index
  omega

/-! ## Properties of found_used_script -/

lemma fus_index_fold_no_op (la : Nat) :
    ∀ (l : List Nat) (s : DSI), (∀ i ∈ l, i ≤ s.max_index) →
      l.foldl
        (fun acc i =>
          if i > acc.max_index ∧ (i, la) ∉ acc.extra_indices then
            { acc with
                extra_indices := acc.extra_indices ++ [(i, acc.account)]
                total_scripts := acc.total_scripts + 1 }
          else acc)
        s = s := by
  intro l
  induction l with
  | nil => intro s _; rfl
  | cons i l ih =>
    intro s h
    rw [List.foldl_cons]
    rw [if_neg (fun hc => absurd hc.1 (by
      have := h i (List.mem_cons_self i l)
      omega))]
    exact ih s (fun j hj => h j (List.mem_cons_of_mem _ hj))

/-- The address-gap loop adds nothing when the window stays within
max_index. -/
lemma fus_index_loop_no_op (s : DSI) (li la : Nat)
    (h : li + s.address_gap ≤ s.max_index) : fus_index_loop s li la = s := by
  unfold fus_index_loop
  apply fus_index_fold_no_op
  intro i hi
  rw [List.mem_range'_1] at hi
  omega

lemma fus_index_loop_preserves (s : DSI) (li la : Nat) :
    (fus_index_loop s li la).index = s.index
    ∧ (fus_index_loop s li la).account = s.account
    ∧ (fus_index_loop s li la).max_index = s.max_index
    ∧ (fus_index_loop s li la).max_account = s.max_account
    ∧ (fus_index_loop s li la).last = s.last
    ∧ (fus_index_loop s li la).address_gap = s.address_gap
    ∧ (fus_index_loop s li la).account_gap = s.account_gap
    ∧ (fus_index_loop s li la).extra_accounts = s.extra_accounts := by
  unfold fus_index_loop
  generalize List.range' (li + 1) s.address_gap = l
  induction l generalizing s with
  | nil => exact ⟨rfl, rfl, rfl, rfl, rfl, rfl, rfl, rfl⟩
  | cons i l ih =>
    rw [List.foldl_cons]
    by_cases hc : i > s.max_index ∧ (i, la) ∉ s.extra_indices
    · rw [if_pos hc]
      exact ih _
    · rw [if_neg hc]
      exact ih s

lemma fus_account_loop_mono :
    ∀ (fuel : Nat) (s : DSI) (la : Nat),
      s.max_account ≤ (fus_account_loop fuel s la).max_account := by
  intro fuel
  induction fuel with
  | zero => intro s la; exact le_refl _
  | succ fuel ih =>
    intro s la
    show (if s.max_account ≤ la + s.account_gap then
        fus_account_loop fuel (fus_account_step s) la else s).max_account ≥ s.max_account
    by_cases hc : s.max_account ≤ la + s.account_gap
    · rw [if_pos hc]
      have h1 : (fus_account_step s).max_account = s.max_account + 1 := rfl
      have h2 := ih (fus_account_step s) la
      omega
    · rw [if_neg hc]

/-- Any found_used_script call on a state with max_account = 0 (and a
recorded last emission) raises max_account to at least 1, whatever the
account gap. -/
lemma found_used_script_max_account_ge_one (s : DSI)
    (hma : s.max_account = 0) (hl : s.last.isSome) :
    1 ≤ s.found_used_script.max_account := by
  unfold DSI.found_used_script
  cases hls : s.last with
  | none => rw [hls] at hl; cases hl
  | some lc =>
    obtain ⟨li, la⟩ := lc
    show 1 ≤ (fus_account_loop
        (la + (fus_index_loop s li la).account_gap + 1 - (fus_index_loop s li la).max_account)
        (fus_index_loop s li la) la).max_account
    have hp := fus_index_loop_preserves s li la
    obtain ⟨k, hk⟩ : ∃ k,
        la + (fus_index_loop s li la).account_gap + 1 - (fus_index_loop s li la).max_account
          = k + 1 := ⟨la + (fus_index_loop s li la).account_gap, by omega⟩
    rw [hk]
    show 1 ≤ (if (fus_index_loop s li la).max_account
          ≤ la + (fus_index_loop s li la).account_gap then
        fus_account_loop k (fus_account_step (fus_index_loop s li la)) la
      else fus_index_loop s li la).max_account
    rw [if_pos (by omega)]
    have h1 : (fus_account_step (fus_index_loop s li la)).max_account
        = (fus_index_loop s li la).max_account + 1 := rfl
    have h2 := fus_account_loop_mono k (fus_account_step (fus_index_loop s li la)) la
    omega

lemma stepCell_origin (mi ma : Nat) :
    stepCell mi ma (0, 0) = (min 1 mi, 1 - min 1 mi) := by
  unfold stepCell
  rw [if_pos (Or.inl rfl)]
  rfl

/-- State after the first emission and a found_used_script call, on a
template with a variable index and no variable account, with account_gap 0:
the cursor has advanced to the second diagonal cell, max_account has grown to
1, the queues are empty and the script estimate has doubled. -/
lemma found_after_first_emission (p : Path) (G : Nat)
    (hva : p.has_variable_account = false) (hvi : p.has_variable_index = true) :
    (stepD (DSI.init p G 0)).found_used_script =
      ⟨min 1 G, 1 - min 1 G, G, 1, [], [], some (0, 0), (G + 1) * 1 + G + 1, G, 0⟩ := by
  have h0 : DSI.init p G 0 = ⟨0, 0, G, 0, [], [], none, (G + 1) * 1, G, 0⟩ := by
    unfold DSI.init
    rw [hvi, hva]
    rfl
  have h1 : stepD (DSI.init p G 0)
      = ⟨min 1 G, 1 - min 1 G, G, 0, [], [], some (0, 0), (G + 1) * 1, G, 0⟩ := by
    unfold stepD
    rw [h0, next_no_extras _ rfl rfl (by
      show ¬((0 : Nat) > G ∨ (0 : Nat) > 0)
      omega)]
    rw [stepCell_origin]
  rw [h1]
  have hnoop := fus_index_loop_no_op
    (⟨min 1 G, 1 - min 1 G, G, 0, [], [], some (0, 0), (G + 1) * 1, G, 0⟩ : DSI) 0 0
    (by show 0 + G ≤ G; omega)
  unfold DSI.found_used_script
  show fus_account_loop _ (fus_index_loop _ 0 0) 0 = _
  rw [hnoop]
  show fus_account_loop 1 (⟨min 1 G, 1 - min 1 G, G, 0, [], [], some (0, 0),
      (G + 1) * 1, G, 0⟩ : DSI) 0 = _
  show (if (0 : Nat) ≤ 0 + 0 then
      fus_account_loop 0 (fus_account_step ⟨min 1 G, 1 - min 1 G, G, 0, [], [],
        some (0, 0), (G + 1) * 1, G, 0⟩) 0
    else ⟨min 1 G, 1 - min 1 G, G, 0, [], [], some (0, 0), (G + 1) * 1, G, 0⟩) = _
  rw [if_pos (le_refl 0)]
  show (⟨min 1 G, 1 - min 1 G, G, 0 + 1, [],
      [] ++ (List.range (min 1 G + (1 - min 1 G) - (0 + 1))).map (fun i => (i, 0 + 1)),
      some (0, 0), (G + 1) * 1 + G + 1, G, 0⟩ : DSI)
    = ⟨min 1 G, 1 - min 1 G, G, 1, [], [], some (0, 0), (G + 1) * 1 + G + 1, G, 0⟩
  rw [show min 1 G + (1 - min 1 G) - (0 + 1) = 0 from by omega]
  rfl

/-! ## Claim theorems -/

/-- C4: on an iterator on which set_used is never called, next() emits each
cell of the rectangle [0, max_index] x [0, max_account] exactly once -- the
emitted sequence is precisely the diagonal enumeration, whose length is
(max_index+1)(max_account+1), which has no duplicates and contains exactly
the rectangle's cells -- sorted first by index+account ascending then by
account ascending, and the call after the last emission returns None.  With
both gaps zero exactly one cell, (0, 0), is emitted. -/
theorem C4_unused_iterator_emits_rectangle_in_diagonal_order
    (p : Path) (address_gap account_gap : Nat) :
    let s0 := DSI.init p address_gap account_gap
    let mi := s0.max_index
    let ma := s0.max_account
    (s0.runState ((mi + 1) * (ma + 1))).1 = diagEnum mi ma
    ∧ ((s0.runState ((mi + 1) * (ma + 1))).2).next = none
    ∧ (diagEnum mi ma).length = (mi + 1) * (ma + 1)
    ∧ (diagEnum mi ma).Nodup
    ∧ (∀ c : Nat × Nat, c ∈ diagEnum mi ma ↔ c.1 ≤ mi ∧ c.2 ≤ ma)
    ∧ List.Pairwise lexLt (diagEnum mi ma)
    ∧ (DSI.init p 0 0).run 1 = [(0, 0)] := by
  intro s0 mi ma
  have hdec := diagEnum_eq_cons mi ma
  have hlen := diagEnum_length mi ma
  have hlen2 : (mi + 1) * (ma + 1) = (diagEnum mi ma).tail.length + 1 := by
    rw [← hlen]
    conv_lhs => rw [hdec]
    simp [List.length_cons]
  have hrun := runState_diagEnum_suffix s0 [] (diagEnum mi ma).tail (0, 0)
    (by simpa using hdec) rfl rfl rfl rfl
  have hrun00 : (DSI.init p 0 0).run 1 = [(0, 0)] := by
    have hc : ¬((DSI.init p 0 0).index > (DSI.init p 0 0).max_index
        ∨ (DSI.init p 0 0).account > (DSI.init p 0 0).max_account) := by
      show ¬((0 : Nat) > (DSI.init p 0 0).max_index ∨ (0 : Nat) > (DSI.init p 0 0).max_account)
      omega
    unfold DSI.run
    rw [runState_succ, next_no_extras _ rfl rfl hc]
    rfl
  refine ⟨?_, ?_, hlen, nodup_diagEnum mi ma, fun c => mem_diagEnum,
    pairwise_lexLt_diagEnum mi ma, hrun00⟩
  · rw [hlen2, hrun.1, ← hdec]
  · rw [hlen2]
    exact hrun.2

lemma pull_batch_length_le {ι : Type} (next : ι → Option (Candidate × ι)) :
    ∀ (n : Nat) (it : ι), (pull_batch next n it).1.length ≤ n := by
  intro n
  induction n with
  | zero => intro it; exact le_refl 0
  | succ n ih =>
    intro it
    show (match next it with
      | none => (([] : List Candidate), it)
      | some (c, it') =>
        let r := pull_batch next n it'
        (c :: r.1, r.2)).1.length ≤ n + 1
    cases next it with
    | none => simp
    | some p =>
      obtain ⟨c, it'⟩ := p
      have := ih it'
      simp only [List.length_cons]
      omega

lemma used_fold_spec {ι β : Type} (g : Candidate → List β) (m : ι → Candidate → ι) :
    ∀ (l : List Candidate) (acc : List Candidate) (it : ι),
      (l.zip (l.map g)).foldl
        (fun st sr => if sr.2.isEmpty then st else (st.1 ++ [sr.1], m st.2 sr.1))
        (acc, it)
      = (acc ++ l.filter fun s => !(g s).isEmpty,
         (l.filter fun s => !(g s).isEmpty).foldl m it) := by
  intro l
  induction l with
  | nil => intro acc it; simp
  | cons s l ih =>
    intro acc it
    rw [List.map_cons, List.zip_cons_cons, List.foldl_cons, List.filter_cons]
    by_cases hp : (g s).isEmpty = true
    · rw [if_pos hp]
      rw [ih acc it]
      simp [hp]
    · rw [if_neg hp]
      rw [ih (acc ++ [s]) (m it s)]
      have hb : (!(g s).isEmpty) = true := by
        simp only [Bool.not_eq_true'] at *
        simp [Bool.not_eq_true] at hp ⊢
        exact hp
      rw [if_pos hb]
      simp

lemma zip_map_foldl_append {α γ δ : Type} (g : α → δ) (f : α → δ → List γ) :
    ∀ (l : List α) (acc : List γ),
      (l.zip (l.map g)).foldl (fun acc sr => acc ++ f sr.1 sr.2) acc
        = acc ++ l.flatMap fun s => f s (g s) := by
  intro l
  induction l with
  | nil => intro acc; simp
  | cons s l ih =>
    intro acc
    rw [List.map_cons, List.zip_cons_cons, List.foldl_cons, List.flatMap_cons, ih]
    rw [List.append_assoc]

/-- C1: one iteration of the scan loop pulls at most batch_size candidates
from the iterator, issues one get_history probe per candidate keyed by the
hex-encoded byte-reversed sha256 of its output script, marks exactly the
candidates with non-empty history used (folding the set_as_used effect over
them in order), issues one listunspent probe for exactly the used candidates,
and converts every unspent entry into a Utxo carrying the candidate's
template with its account and index substituted and the candidate's script
type. -/
theorem C1_scan_iteration_behaviour {ι β : Type} (sha256 : List Nat → List Nat)
    (history : List Nat → List β) (listunspent : List Nat → List UnspentEntry)
    (next : ι → Option (Candidate × ι)) (mark_used : ι → Candidate → ι)
    (batch_size : Nat) (it : ι) :
    let r := scan_iteration sha256 history listunspent next mark_used batch_size it
    r.scripts = (pull_batch next batch_size it).1
    ∧ r.scripts.length ≤ batch_size
    ∧ r.history_request = r.scripts.map (fun s =>
        (ElectrumMethod.get_history, hexEncode (sha256 s.program).reverse))
    ∧ r.used_scripts = r.scripts.filter (fun s =>
        !(history (hexEncode (sha256 s.program).reverse)).isEmpty)
    ∧ r.iter = r.used_scripts.foldl mark_used (pull_batch next batch_size it).2
    ∧ r.unspent_request = r.used_scripts.map (fun s =>
        (ElectrumMethod.list_unspent, hexEncode (sha256 s.program).reverse))
    ∧ r.new_utxos = r.used_scripts.flatMap (fun s =>
        (listunspent (hexEncode (sha256 s.program).reverse)).map fun e =>
          { txid := e.tx_hash
            output_index := e.tx_pos
            amount_in_sat := e.value
            path := (s.path.with_account s.account).with_index s.index
            script_type := s.script_type }) := by
  intro r
  have hresp₁ :
      ((pull_batch next batch_size it).1.map fun s =>
          (ElectrumMethod.get_history, electrum_script_hash sha256 s.program)).map
        (fun q => history q.2)
      = (pull_batch next batch_size it).1.map fun s =>
          history (electrum_script_hash sha256 s.program) := by
    rw [List.map_map]
    rfl
  have hused := used_fold_spec (m := mark_used)
    (fun s => history (electrum_script_hash sha256 s.program))
    (pull_batch next batch_size it).1 [] (pull_batch next batch_size it).2
  have husedval : r.used_scripts = (pull_batch next batch_size it).1.filter
      fun s => !(history (electrum_script_hash sha256 s.program)).isEmpty := by
    show (((pull_batch next batch_size it).1.zip
        (((pull_batch next batch_size it).1.map fun s =>
          (ElectrumMethod.get_history, electrum_script_hash sha256 s.program)).map
            (fun q => history q.2))).foldl
        (fun st sr => if sr.2.isEmpty then st else (st.1 ++ [sr.1], mark_used st.2 sr.1))
        ([], (pull_batch next batch_size it).2)).1 = _
    rw [hresp₁, hused]
    rw [List.nil_append]
  have hiterval : r.iter = ((pull_batch next batch_size it).1.filter
      fun s => !(history (electrum_script_hash sha256 s.program)).isEmpty).foldl
        mark_used (pull_batch next batch_size it).2 := by
    show (((pull_batch next batch_size it).1.zip
        (((pull_batch next batch_size it).1.map fun s =>
          (ElectrumMethod.get_history, electrum_script_hash sha256 s.program)).map
            (fun q => history q.2))).foldl
        (fun st sr => if sr.2.isEmpty then st else (st.1 ++ [sr.1], mark_used st.2 sr.1))
        ([], (pull_batch next batch_size it).2)).2 = _
    rw [hresp₁, hused]
  refine ⟨rfl, pull_batch_length_le next batch_size it, rfl, husedval, ?_, rfl, ?_⟩
  · rw [hiterval, husedval]
  · have hresp₂ :
        ((r.used_scripts.map fun s =>
            (ElectrumMethod.list_unspent, electrum_script_hash sha256 s.program)).map
          (fun q => listunspent q.2))
        = r.used_scripts.map fun s =>
            listunspent (electrum_script_hash sha256 s.program) := by
      rw [List.map_map]
      rfl
    have happ := zip_map_foldl_append
      (fun s : Candidate => listunspent (electrum_script_hash sha256 s.program))
      (fun s resp => resp.map fun e =>
        ({ txid := e.tx_hash
           output_index := e.tx_pos
           amount_in_sat := e.value
           path := s.full_path
           script_type := s.script_type } : Utxo))
      r.used_scripts []
    show ((r.used_scripts.zip
        ((r.used_scripts.map fun s =>
            (ElectrumMethod.list_unspent, electrum_script_hash sha256 s.program)).map
          (fun q => listunspent q.2))).foldl
        (fun acc sr => acc ++ sr.2.map fun e =>
          ({ txid := e.tx_hash
             output_index := e.tx_pos
             amount_in_sat := e.value
             path := sr.1.full_path
             script_type := sr.1.script_type } : Utxo))
        []) = _
    rw [hresp₂, happ, List.nil_append]
    rfl

/-- C2 (code evaluated at the failing input): on the template m/0'/0/i with
address_gap 1 and account_gap 0, after emitting (0,0) and (1,0) the recorded
last emission is (1,0) -- account row 0 -- yet found_used_script appends the
cell (2, 1), bearing the account of the already advanced cursor, to
extra_indices, not the claimed (2, last.account) = (2, 0). -/
theorem C2_expansion_appends_cursor_account :
    (stepD (stepD (DSI.init brdExternalPath 1 0))).last = some (1, 0)
    ∧ (stepD (stepD (DSI.init brdExternalPath 1 0))).found_used_script.extra_indices
        = [(2, 1)]
    ∧ (stepD (stepD (DSI.init brdExternalPath 1 0))).found_used_script.extra_indices
        ≠ [(2, 0)] := by
  decide

/-- C3 (counterexample): a reachable iterator state in which next() returns
the cell (2,1) popped from extra_indices while last remains (1,0); the
recorded last does not equal the cell just emitted. -/
theorem C3_counterexample_last_stale_after_pop :
    ((stepD (stepD (DSI.init brdExternalPath 1 0))).found_used_script.next).map Prod.fst
        = some (2, 1)
    ∧ ((stepD (stepD (DSI.init brdExternalPath 1 0))).found_used_script.next).map
        (fun r => r.2.last) = some (some (1, 0))
    ∧ some ((1 : Nat), (0 : Nat)) ≠ some ((2 : Nat), (1 : Nat)) := by
  decide

/-- C3 (amended): after a next() call that returns a cell, last equals the
emitted cell exactly when the cell was produced by the diagonal walk (both
extra queues empty); a cell popped from extra_indices or extra_accounts
leaves last unchanged, so a subsequent set_used expands around the last
diagonal cell rather than around the popped cell. -/
theorem C3_last_tracks_diagonal_emissions_only
    (s : DSI) (c : Nat × Nat) (s' : DSI) (h : s.next = some (c, s')) :
    s'.last = if s.extra_indices = [] ∧ s.extra_accounts = [] then some c else s.last := by
  obtain ⟨idx, acct, mi, ma, ei, ea, lst, ts, ag, acg⟩ := s
  cases ei with
  | cons c0 rest =>
    rw [next_pop_extra_index _ c0 rest rfl] at h
    rw [Option.some.injEq, Prod.mk.injEq] at h
    obtain ⟨rfl, rfl⟩ := h
    rw [if_neg (by simp)]
  | nil =>
    cases ea with
    | cons c0 rest =>
      rw [next_pop_extra_account _ c0 rest rfl rfl] at h
      rw [Option.some.injEq, Prod.mk.injEq] at h
      obtain ⟨rfl, rfl⟩ := h
      rw [if_neg (by simp)]
    | nil =>
      by_cases hb : idx > mi ∨ acct > ma
      · rw [next_none _ rfl rfl hb] at h
        cases h
      · rw [next_no_extras _ rfl rfl hb] at h
        rw [Option.some.injEq, Prod.mk.injEq] at h
        obtain ⟨hc, rfl⟩ := h
        rw [if_pos ⟨rfl, rfl⟩, ← hc]

/-- Witness for the amended C3 theorem at the freshly initialized iterator:
the first call emits (0,0) via the diagonal walk and records it as last. -/
theorem C3_last_tracks_diagonal_emissions_only_witness :
    (stepD (DSI.init brdExternalPath 1 0)).last = some (0, 0) := by
  have h := C3_last_tracks_diagonal_emissions_only (DSI.init brdExternalPath 1 0) (0, 0)
      (stepD (DSI.init brdExternalPath 1 0)) rfl
  rw [h]
  decide

lemma scanStep_loopState (t : Nat) :
    scanStep used123 (loopState t) = some ((2, 1), loopState (t + 1)) := rfl

lemma scanEmits_succ (used : Nat → Bool) (s : DSI) (fuel : Nat) :
    scanEmits used s (fuel + 1) =
      match scanStep used s with
      | none => []
      | some (c, s') => c :: scanEmits used s' fuel := rfl

lemma scanEmits_loopState : ∀ (n t : Nat),
    scanEmits used123 (loopState t) n = List.replicate n (2, 1) := by
  intro n
  induction n with
  | zero => intro t; rfl
  | succ n ih =>
    intro t
    rw [scanEmits_succ, scanStep_loopState]
    show (2, 1) :: scanEmits used123 (loopState (t + 1)) n = _
    rw [ih (t + 1), List.replicate_succ]

lemma scanEmits_first_two (n : Nat) :
    scanEmits used123 (DSI.init brdExternalPath 1 0) (n + 2)
      = (0, 0) :: (1, 0) :: scanEmits used123 (loopState 5) n := rfl

/-- C5 (code evaluated at the failing input): template m/0'/0/i, address_gap
1, account_gap 0, used scripts exactly at indices 1, 2 and 3 -- a chain
1 < 2 < 3 with every gap equal to the gap limit 1.  The sequential scan
emits (0,0), (1,0) and then re-emits the queued cell (2,1) forever: no
emission ever carries index 3, so the cell (3,0) is never emitted, against
the claimed discoverability of the hit at index 3 through the chain. -/
theorem C5_gap_chain_discovery_fails_in_code :
    (∀ n : Nat, ((scanEmits used123 (DSI.init brdExternalPath 1 0) n).all
        fun c => c.1 != 3) = true)
    ∧ scanEmits used123 (DSI.init brdExternalPath 1 0) 5
        = [(0, 0), (1, 0), (2, 1), (2, 1), (2, 1)]
    ∧ (used123 1 = true ∧ used123 2 = true ∧ used123 3 = true) := by
  refine ⟨?_, by decide, by decide, by decide, by decide⟩
  intro n
  rcases n with _ | _ | n
  · rfl
  · decide
  · rw [scanEmits_first_two, scanEmits_loopState]
    rw [List.all_eq_true]
    intro x hx
    simp only [List.mem_cons, List.mem_replicate] at hx
    rcases hx with rfl | rfl | ⟨-, rfl⟩ <;> rfl

/-- Substituting an account into a path without a variable account changes
nothing. -/
lemma with_account_no_op (p : Path) (h : p.has_variable_account = false) (a : Nat) :
    p.with_account a = p := by
  obtain ⟨comps⟩ := p
  unfold Path.has_variable_account at h
  rw [List.any_eq_false] at h
  unfold Path.with_account
  congr 1
  induction comps with
  | nil => rfl
  | cons c l ih =>
    rw [List.map_cons]
    have hc := h c (List.mem_cons_self c l)
    have hl := ih (fun x hx => h x (List.mem_cons_of_mem _ hx))
    rw [hl]
    cases c with
    | num n hard => rfl
    | acc hard => exact absurd rfl hc
    | idx hard => rfl

/-- The first two cells of a non-degenerate diagonal enumeration. -/
lemma diagEnum_second (mi ma : Nat) (h : 1 ≤ mi + ma) :
    diagEnum mi ma = (0, 0) :: stepCell mi ma (0, 0) :: (diagEnum mi ma).tail.tail := by
  have hdec := diagEnum_eq_cons mi ma
  have hlen := diagEnum_length mi ma
  have htl : (diagEnum mi ma).tail ≠ [] := by
    intro hnil
    rw [hdec, hnil] at hlen
    simp only [List.length_singleton] at hlen
    nlinarith
  have hchain := chain'_diagEnum mi ma
  rw [hdec] at hchain
  have hdec2 := List.head_cons_tail (diagEnum mi ma).tail htl
  rw [← hdec2] at hchain
  have hstep := (List.chain'_cons.mp hchain).1
  conv_lhs => rw [hdec, ← hdec2]
  rw [← hstep]

/-- C10: on a template with no variable account (and a variable index),
max_account starts at 0, yet any found_used_script call raises it to at
least 1; with_account is a no-op on such a path, so after a hit at (0,0)
(with account_gap 0) the drain emits the whole rectangle with the freshly
unlocked account row 1 -- the cell (i,1) alongside (i,0) for every index i
-- whose rendered script tuples are identical, while total_scripts counts
the (G+1) distinct scripts twice. -/
theorem C10_fixed_account_path_probed_twice
    (p : Path) (G i n a : Nat) (C : Crypto) (keyfun : List Nat → List Nat)
    (t : ScriptType) (s : DSI)
    (hva : p.has_variable_account = false)
    (hvi : p.has_variable_index = true)
    (hi : i ≤ G)
    (hma : s.max_account = 0) (hl : s.last.isSome) :
    (DSI.init p G 0).max_account = 0
    ∧ 1 ≤ s.found_used_script.max_account
    ∧ p.with_account a = p
    ∧ (0, 0) :: (((stepD (DSI.init p G 0)).found_used_script).runState ((G + 1) * 2 - 1)).1
        = diagEnum G 1
    ∧ (i, 0) ∈ diagEnum G 1
    ∧ (i, 1) ∈ diagEnum G 1
    ∧ ((stepD (DSI.init p G 0)).found_used_script).total_scripts = (G + 1) * 2
    ∧ script_at C keyfun p t i n = script_at C keyfun p t i 0 := by
  have hfound := found_after_first_emission p G hva hvi
  refine ⟨?_, found_used_script_max_account_ge_one s hma hl, with_account_no_op p hva a,
    ?_, mem_diagEnum.mpr (by omega), mem_diagEnum.mpr (by omega), ?_, ?_⟩
  · show (if p.has_variable_account = true then 0 else 0) = 0
    exact ite_self 0
  · have hdec2 := diagEnum_second G 1 (by omega)
    rw [stepCell_origin] at hdec2
    have hlen := diagEnum_length G 1
    rw [hdec2] at hlen
    simp only [List.length_cons] at hlen
    have hrun := runState_diagEnum_suffix
      (⟨min 1 G, 1 - min 1 G, G, 1, [], [], some (0, 0), (G + 1) * 1 + G + 1, G, 0⟩ : DSI)
      [(0, 0)] ((diagEnum G 1).tail.tail) (min 1 G, 1 - min 1 G)
      (by
        show diagEnum G 1 = [(0, 0)] ++ (min 1 G, 1 - min 1 G) :: (diagEnum G 1).tail.tail
        rw [List.singleton_append]
        exact hdec2)
      rfl rfl rfl rfl
    rw [hfound]
    rw [show (G + 1) * 2 - 1 = (diagEnum G 1).tail.tail.length + 1 from by omega]
    rw [hrun.1]
    rw [hdec2]
    rfl
  · rw [hfound]
    show (G + 1) * 1 + G + 1 = (G + 1) * 2
    omega
  · unfold script_at
    rw [with_account_no_op p hva n, with_account_no_op p hva 0]

lemma inputs_flatMap {γ : Type} (script : List Nat) (k : Nat) (g : Utxo → List γ) :
    ∀ (l : List Utxo) (n : Nat),
      (((List.enumFrom n l).map fun ju =>
          (ju.2, if ju.1 = k then script else ([] : List Nat),
            ([] : List (List Nat)))).flatMap fun i => g i.1)
        = l.flatMap g := by
  intro l
  induction l with
  | nil => intro n; rfl
  | cons u l ih =>
    intro n
    rw [show List.enumFrom n (u :: l) = (n, u) :: List.enumFrom (n + 1) l from rfl]
    rw [List.map_cons, List.flatMap_cons, ih]
    rfl

lemma inputs_flatMap_enum {γ : Type} (script : List Nat) (k : Nat) (g : Utxo → List γ)
    (l : List Utxo) :
    (((l.enum.map fun ju =>
        (ju.2, if ju.1 = k then script else ([] : List Nat),
          ([] : List (List Nat)))).flatMap fun i => g i.1))
      = l.flatMap g :=
  inputs_flatMap script k g l 0

lemma inputs_getD (script : List Nat) (k : Nat) (l : List Utxo) (hk : k < l.length) :
    ((l.enum.map fun ju =>
        (ju.2, if ju.1 = k then script else ([] : List Nat),
          ([] : List (List Nat)))).getD k default)
      = (l.getD k default, script, ([] : List (List Nat))) := by
  have hk' : k < ((l.enum.map fun ju =>
      (ju.2, if ju.1 = k then script else ([] : List Nat),
        ([] : List (List Nat))))).length := by
    rw [List.length_map, List.enum_length]
    exact hk
  rw [List.getD_eq_getElem _ _ hk', List.getElem_map, List.getElem_enum]
  rw [if_pos rfl, List.getD_eq_getElem _ _ hk]

/-- C6: for COMPAT and SEGWIT inputs, the digest signed for input position k
is the double-sha256 of exactly the BIP-143 preimage: version (u32 LE),
double-sha256 of the concatenated prevouts (reversed txid and vout u32 LE),
double-sha256 of the concatenated sequences, prevout k, the varint-prefixed
signing script -- the P2PKH output script for hash160 of the input's pubkey
-- the amount as u64 LE, the sequence, the double-sha256 of the serialized
outputs, the locktime, and SIGHASH_ALL as u32 LE. -/
theorem C6_segwit_inputs_signed_over_bip143_preimage
    (Cc : Crypto) (S : Signer) (utxos : List Utxo)
    (outputs : List TxOutput) (k : Nat)
    (hk : k < utxos.length)
    (ht : (utxos.getD k default).script_type = ScriptType.COMPAT
        ∨ (utxos.getD k default).script_type = ScriptType.SEGWIT)
    (h20 : ∀ x, (Cc.ripemd160 x).length = 20) :
    tx_digest Cc S utxos outputs k =
      Cc.sha256 (Cc.sha256 (
        toBytesLE VERSION 4
        ++ Cc.sha256 (Cc.sha256 (utxos.flatMap fun u =>
            (fromHex u.txid).reverse ++ toBytesLE u.output_index 4))
        ++ Cc.sha256 (Cc.sha256 (utxos.flatMap fun _ => toBytesLE SEQUENCE 4))
        ++ (fromHex (utxos.getD k default).txid).reverse
        ++ toBytesLE (utxos.getD k default).output_index 4
        ++ [25]
        ++ ([OP_DUP, OP_HASH160, 20]
            ++ hash160 Cc (S.get_pubkey_from_path ((utxos.getD k default).path.to_list 0 0))
            ++ [OP_EQUALVERIFY, OP_CHECKSIG])
        ++ toBytesLE (utxos.getD k default).amount_in_sat 8
        ++ toBytesLE SEQUENCE 4
        ++ Cc.sha256 (Cc.sha256 (outputs.flatMap fun o =>
            toBytesLE o.1 8 ++ varint o.2.length ++ o.2))
        ++ toBytesLE LOCKTIME 4
        ++ toBytesLE SIGHASH_ALL 4)) := by
  have hlen160 : ∀ x, (hash160 Cc x).length = 20 := fun x => h20 _
  have hne : ¬((utxos.getD k default).script_type = ScriptType.LEGACY) := by
    rcases ht with h | h <;> rw [h] <;> exact fun hc => ScriptType.noConfusion hc
  have hscript : ScriptType.LEGACY.build_output_script Cc
      (S.get_pubkey_from_path ((utxos.getD k default).path.to_list 0 0))
      = [OP_DUP, OP_HASH160, 20]
        ++ hash160 Cc (S.get_pubkey_from_path ((utxos.getD k default).path.to_list 0 0))
        ++ [OP_EQUALVERIFY, OP_CHECKSIG] := by
    show build_p2pkh_output_script _ = _
    unfold build_p2pkh_output_script
    rw [hlen160]
  have hslen : (ScriptType.LEGACY.build_output_script Cc
      (S.get_pubkey_from_path ((utxos.getD k default).path.to_list 0 0))).length = 25 := by
    rw [hscript]
    simp only [List.length_append, List.length_cons, List.length_nil, hlen160]
  have hvar : varint 25 = [25] := by
    unfold varint
    rw [if_pos (by norm_num)]
  simp only [tx_digest]
  rw [if_neg hne]
  congr 2
  simp only [serialize_tx_for_segwit_signing]
  rw [inputs_flatMap_enum
        (ScriptType.LEGACY.build_output_script Cc
          (S.get_pubkey_from_path ((utxos.getD k default).path.to_list 0 0))) k
        (fun u => (fromHex u.txid).reverse ++ toBytesLE u.output_index 4) utxos,
      inputs_flatMap_enum
        (ScriptType.LEGACY.build_output_script Cc
          (S.get_pubkey_from_path ((utxos.getD k default).path.to_list 0 0))) k
        (fun _ => toBytesLE SEQUENCE 4) utxos,
      inputs_getD _ _ _ hk]
  simp only [hscript, List.append_assoc]
  rw [show ([OP_DUP, OP_HASH160, 20]
      ++ (hash160 Cc (S.get_pubkey_from_path ((utxos.getD k default).path.to_list 0 0))
        ++ [OP_EQUALVERIFY, OP_CHECKSIG])).length = 25 from by simp [hlen160]]
  rw [hvar]

/-- Witness for the C6 theorem at a concrete single-input transaction with
dummy hash functions. -/
theorem C6_segwit_inputs_signed_over_bip143_preimage_witness :
    tx_digest ⟨fun _ => [], fun _ => List.replicate 20 0⟩
        ⟨fun _ => [], fun _ => [], fun _ _ => []⟩
        [⟨[], 0, 0, ⟨[]⟩, ScriptType.SEGWIT⟩] [] 0 =
      (⟨fun _ => [], fun _ => List.replicate 20 0⟩ : Crypto).sha256
        ((⟨fun _ => [], fun _ => List.replicate 20 0⟩ : Crypto).sha256 (
        toBytesLE VERSION 4
        ++ (⟨fun _ => [], fun _ => List.replicate 20 0⟩ : Crypto).sha256
          ((⟨fun _ => [], fun _ => List.replicate 20 0⟩ : Crypto).sha256
            (([⟨[], 0, 0, ⟨[]⟩, ScriptType.SEGWIT⟩] : List Utxo).flatMap fun u =>
              (fromHex u.txid).reverse ++ toBytesLE u.output_index 4))
        ++ (⟨fun _ => [], fun _ => List.replicate 20 0⟩ : Crypto).sha256
          ((⟨fun _ => [], fun _ => List.replicate 20 0⟩ : Crypto).sha256
            (([⟨[], 0, 0, ⟨[]⟩, ScriptType.SEGWIT⟩] : List Utxo).flatMap fun _ =>
              toBytesLE SEQUENCE 4))
        ++ (fromHex (([⟨[], 0, 0, ⟨[]⟩, ScriptType.SEGWIT⟩] : List Utxo).getD 0 default).txid).reverse
        ++ toBytesLE (([⟨[], 0, 0, ⟨[]⟩, ScriptType.SEGWIT⟩] : List Utxo).getD 0 default).output_index 4
        ++ [25]
        ++ ([OP_DUP, OP_HASH160, 20]
            ++ hash160 ⟨fun _ => [], fun _ => List.replicate 20 0⟩
              ((⟨fun _ => [], fun _ => [], fun _ _ => []⟩ : Signer).get_pubkey_from_path
                ((([⟨[], 0, 0, ⟨[]⟩, ScriptType.SEGWIT⟩] : List Utxo).getD 0 default).path.to_list 0 0))
            ++ [OP_EQUALVERIFY, OP_CHECKSIG])
        ++ toBytesLE (([⟨[], 0, 0, ⟨[]⟩, ScriptType.SEGWIT⟩] : List Utxo).getD 0 default).amount_in_sat 8
        ++ toBytesLE SEQUENCE 4
        ++ (⟨fun _ => [], fun _ => List.replicate 20 0⟩ : Crypto).sha256
          ((⟨fun _ => [], fun _ => List.replicate 20 0⟩ : Crypto).sha256
            (([] : List TxOutput).flatMap fun o => toBytesLE o.1 8 ++ varint o.2.length ++ o.2))
        ++ toBytesLE LOCKTIME 4
        ++ toBytesLE SIGHASH_ALL 4)) :=
  C6_segwit_inputs_signed_over_bip143_preimage
    ⟨fun _ => [], fun _ => List.replicate 20 0⟩
    ⟨fun _ => [], fun _ => [], fun _ _ => []⟩
    [⟨[], 0, 0, ⟨[]⟩, ScriptType.SEGWIT⟩] [] 0
    (by decide) (Or.inr rfl) (fun x => by simp)

/-- C7: a transaction whose inputs are all LEGACY (hence all witnesses
empty) has virtual_size equal to the exact length of to_bytes; a transaction
with some non-empty witness satisfies 3n + w - 3 <= 4 vsize <= 3n + w, where
n is the length of the witness-free serialization and w the length of the
full BIP-144 serialization. -/
theorem C7_virtual_size_law (Cc : Crypto) (S : Signer) (utxos : List Utxo)
    (output_script : List Nat) (amount_in_sat : Nat) :
    let t := mk_transaction Cc S utxos output_script amount_in_sat
    ((∀ u ∈ utxos, u.script_type = ScriptType.LEGACY) →
      t.virtual_size = t.to_bytes.length)
    ∧ ((∃ inp ∈ t.inputs, inp.2.2 ≠ []) →
      (4 * t.virtual_size ≤ 3 * (serialize_tx t.inputs t.outputs false).length
          + (serialize_tx t.inputs t.outputs true).length
        ∧ 3 * (serialize_tx t.inputs t.outputs false).length
            + (serialize_tx t.inputs t.outputs true).length < 4 * t.virtual_size + 4)) := by
  intro t
  constructor
  · intro hleg
    have hwit : ∀ inp ∈ t.inputs, inp.2.2 = [] := by
      intro inp hinp
      have hinp' : inp ∈ (List.range utxos.length).map
          (build_input Cc S utxos [(amount_in_sat, output_script)]) := hinp
      obtain ⟨j, hj, rfl⟩ := List.mem_map.mp hinp'
      rw [List.mem_range] at hj
      have hu : utxos.getD j default ∈ utxos := by
        rw [List.getD_eq_getElem _ _ hj]
        exact List.getElem_mem hj
      have hlegj := hleg _ hu
      show ((utxos.getD j default).script_type).build_witness _ _ = []
      rw [hlegj]
      rfl
    have hany : (t.inputs.any fun i => !i.2.2.isEmpty) = false := by
      rw [List.any_eq_false]
      intro x hx
      rw [hwit x hx]
      simp
    have hser : serialize_tx t.inputs t.outputs true = serialize_tx t.inputs t.outputs false := by
      unfold serialize_tx
      rw [hany]
      simp
    show (3 * (serialize_tx t.inputs t.outputs false).length
        + (serialize_tx t.inputs t.outputs true).length) / 4
      = (serialize_tx t.inputs t.outputs true).length
    rw [hser]
    omega
  · intro _
    constructor
    · show 4 * ((3 * (serialize_tx t.inputs t.outputs false).length
          + (serialize_tx t.inputs t.outputs true).length) / 4) ≤ _
      omega
    · show _ < 4 * ((3 * (serialize_tx t.inputs t.outputs false).length
          + (serialize_tx t.inputs t.outputs true).length) / 4) + 4
      omega

/-- Witness for the C7 theorem: an all-LEGACY transaction attains the exact
equality, and a SEGWIT transaction the bracketing inequalities. -/
theorem C7_virtual_size_law_witness :
    (mk_transaction ⟨fun _ => [], fun _ => []⟩ ⟨fun _ => [], fun _ => [], fun _ _ => []⟩
        [⟨[], 0, 0, ⟨[]⟩, ScriptType.LEGACY⟩] [] 600).virtual_size
      = (mk_transaction ⟨fun _ => [], fun _ => []⟩ ⟨fun _ => [], fun _ => [], fun _ _ => []⟩
        [⟨[], 0, 0, ⟨[]⟩, ScriptType.LEGACY⟩] [] 600).to_bytes.length
    ∧ 4 * (mk_transaction ⟨fun _ => [], fun _ => []⟩ ⟨fun _ => [], fun _ => [], fun _ _ => []⟩
        [⟨[], 0, 0, ⟨[]⟩, ScriptType.SEGWIT⟩] [] 600).virtual_size
      ≤ 3 * (serialize_tx (mk_transaction ⟨fun _ => [], fun _ => []⟩
            ⟨fun _ => [], fun _ => [], fun _ _ => []⟩
            [⟨[], 0, 0, ⟨[]⟩, ScriptType.SEGWIT⟩] [] 600).inputs
          (mk_transaction ⟨fun _ => [], fun _ => []⟩
            ⟨fun _ => [], fun _ => [], fun _ _ => []⟩
            [⟨[], 0, 0, ⟨[]⟩, ScriptType.SEGWIT⟩] [] 600).outputs false).length
        + (serialize_tx (mk_transaction ⟨fun _ => [], fun _ => []⟩
            ⟨fun _ => [], fun _ => [], fun _ _ => []⟩
            [⟨[], 0, 0, ⟨[]⟩, ScriptType.SEGWIT⟩] [] 600).inputs
          (mk_transaction ⟨fun _ => [], fun _ => []⟩
            ⟨fun _ => [], fun _ => [], fun _ _ => []⟩
            [⟨[], 0, 0, ⟨[]⟩, ScriptType.SEGWIT⟩] [] 600).outputs true).length :=
  ⟨(C7_virtual_size_law ⟨fun _ => [], fun _ => []⟩ ⟨fun _ => [], fun _ => [], fun _ _ => []⟩
      [⟨[], 0, 0, ⟨[]⟩, ScriptType.LEGACY⟩] [] 600).1
    (by intro u hu; rw [List.mem_singleton] at hu; rw [hu]),
   ((C7_virtual_size_law ⟨fun _ => [], fun _ => []⟩ ⟨fun _ => [], fun _ => [], fun _ _ => []⟩
      [⟨[], 0, 0, ⟨[]⟩, ScriptType.SEGWIT⟩] [] 600).2
    (by decide)).1⟩

/-- C8: the three output-script shapes, with every push via the direct
length-prefix opcode: LEGACY is the 25-byte P2PKH script, COMPAT the 23-byte
P2SH wrapping of the segwit v0 program, SEGWIT the 22-byte native segwit v0
script. -/
theorem C8_output_script_shapes (Cc : Crypto) (pubkey : List Nat)
    (h33 : pubkey.length = 33)
    (h20 : ∀ x, (Cc.ripemd160 x).length = 20) :
    ScriptType.LEGACY.build_output_script Cc pubkey
      = [OP_DUP, OP_HASH160, 0x14] ++ hash160 Cc pubkey ++ [OP_EQUALVERIFY, OP_CHECKSIG]
    ∧ (ScriptType.LEGACY.build_output_script Cc pubkey).length = 25
    ∧ ScriptType.COMPAT.build_output_script Cc pubkey
      = [OP_HASH160, 0x14] ++ hash160 Cc ([OP_0, 0x14] ++ hash160 Cc pubkey) ++ [OP_EQUAL]
    ∧ (ScriptType.COMPAT.build_output_script Cc pubkey).length = 23
    ∧ ScriptType.SEGWIT.build_output_script Cc pubkey
      = [OP_0, 0x14] ++ hash160 Cc pubkey
    ∧ (ScriptType.SEGWIT.build_output_script Cc pubkey).length = 22 := by
  have hlen160 : ∀ x, (hash160 Cc x).length = 20 := fun x => h20 _
  have hseg : build_segwit_output_script (hash160 Cc pubkey)
      = [OP_0, 0x14] ++ hash160 Cc pubkey := by
    unfold build_segwit_output_script
    rw [hlen160]
  refine ⟨?_, ?_, ?_, ?_, ?_, ?_⟩
  · show build_p2pkh_output_script (hash160 Cc pubkey) = _
    unfold build_p2pkh_output_script
    rw [hlen160]
  · show (build_p2pkh_output_script (hash160 Cc pubkey)).length = 25
    unfold build_p2pkh_output_script
    simp only [List.length_append, List.length_cons, List.length_nil, hlen160]
  · show build_p2sh_output_script (hash160 Cc (build_segwit_output_script (hash160 Cc pubkey))) = _
    unfold build_p2sh_output_script
    rw [hlen160, hseg]
  · show (build_p2sh_output_script
        (hash160 Cc (build_segwit_output_script (hash160 Cc pubkey)))).length = 23
    unfold build_p2sh_output_script
    simp only [List.length_append, List.length_cons, List.length_nil, hlen160]
  · exact hseg
  · show (build_segwit_output_script (hash160 Cc pubkey)).length = 22
    unfold build_segwit_output_script
    simp only [List.length_append, List.length_cons, List.length_nil, hlen160]

/-- Witness for the C8 theorem at a concrete 33-byte key and dummy hashes. -/
theorem C8_output_script_shapes_witness :
    (ScriptType.SEGWIT.build_output_script ⟨fun _ => [], fun _ => List.replicate 20 0⟩
        (List.replicate 33 2)).length = 22 :=
  (C8_output_script_shapes ⟨fun _ => [], fun _ => List.replicate 20 0⟩ (List.replicate 33 2)
    (by simp) (fun x => by simp)).2.2.2.2.2

/-- C9 (counterexample): the string "3QJmnh" -- the base58check encoding of
the empty byte string -- is not an address (its decode has no version byte and
it is not a bech32 string), yet the decoder raises an uncaught IndexError at
`decoded[0]` instead of returning None, and transaction construction escapes
with that exception rather than failing with InvalidAddress. -/
theorem C9_counterexample_empty_b58_payload_raises :
    b58EmptyPayloadOnly emptyPayloadAddress = some []
    ∧ bech32AlwaysFail emptyPayloadAddress = none
    ∧ build_output_script_from_address b58EmptyPayloadOnly bech32AlwaysFail
        emptyPayloadAddress = .error ()
    ∧ build_output_script_from_address b58EmptyPayloadOnly bech32AlwaysFail
        emptyPayloadAddress ≠ .ok none
    ∧ Transaction.build ⟨fun _ => [], fun _ => []⟩ ⟨fun _ => [], fun _ => [], fun _ _ => []⟩
        b58EmptyPayloadOnly bech32AlwaysFail [] emptyPayloadAddress 1000
        = .error .index_error
    ∧ Transaction.build ⟨fun _ => [], fun _ => []⟩ ⟨fun _ => [], fun _ => [], fun _ _ => []⟩
        b58EmptyPayloadOnly bech32AlwaysFail [] emptyPayloadAddress 1000
        ≠ .error .invalid_address := by
  decide

/-- C9 (amended): transaction construction fails exactly when the destination
yields no output script or the amount is below the dust threshold, with the
address checked first; for a string that is neither a base58check payload
with version byte 0x00 or 0x05 nor a bech32 decode with witness version 0,
the decoder yields None -- except when the base58check decode succeeds with
an empty payload, in which case the source raises an uncaught IndexError
(propagated out of construction) instead of returning None. -/
theorem C9_construction_failure_and_address_decoding_amended {α : Type}
    (Cc : Crypto) (S : Signer)
    (b58decode_check : α → Option (List Nat))
    (bech32_decode : α → Option (Nat × List Nat))
    (utxos : List Utxo) (address bad_address : α) (amount_in_sat : Nat)
    (hb : ∀ v h, b58decode_check bad_address = some (v :: h) →
      v ≠ P2PKH_ADDRESS_HEADER ∧ v ≠ P2SH_ADDRESS_HEADER)
    (hbech : ∀ v h, bech32_decode bad_address = some (v, h) → v ≠ 0) :
    (b58decode_check bad_address ≠ some [] →
      build_output_script_from_address b58decode_check bech32_decode bad_address = .ok none)
    ∧ (b58decode_check bad_address = some [] →
      build_output_script_from_address b58decode_check bech32_decode bad_address = .error ())
    ∧ (buildFailed (Transaction.build Cc S b58decode_check bech32_decode utxos
          address amount_in_sat) = true
        ↔ ((∀ script, build_output_script_from_address b58decode_check bech32_decode address
              ≠ .ok (some script))
            ∨ amount_in_sat < NON_SEGWIT_DUST))
    ∧ (build_output_script_from_address b58decode_check bech32_decode address = .ok none →
        Transaction.build Cc S b58decode_check bech32_decode utxos address amount_in_sat
          = .error .invalid_address)
    ∧ (build_output_script_from_address b58decode_check bech32_decode address = .error () →
        Transaction.build Cc S b58decode_check bech32_decode utxos address amount_in_sat
          = .error .index_error)
    ∧ (∀ script,
        build_output_script_from_address b58decode_check bech32_decode address
          = .ok (some script) →
        amount_in_sat < NON_SEGWIT_DUST →
        Transaction.build Cc S b58decode_check bech32_decode utxos address amount_in_sat
          = .error .dust) := by
  have bechnone : bech32_address_branch bech32_decode bad_address = none := by
    unfold bech32_address_branch
    cases hbe : bech32_decode bad_address with
    | none => rfl
    | some p =>
      obtain ⟨v, hsh⟩ := p
      show (if v = 0 then some (build_segwit_output_script hsh) else none) = none
      rw [if_neg (hbech v hsh hbe)]
  refine ⟨?_, ?_, ?_, ?_, ?_, ?_⟩
  · intro hne
    unfold build_output_script_from_address
    cases hb58 : b58decode_check bad_address with
    | none => rw [bechnone]
    | some d =>
      cases d with
      | nil => exact absurd hb58 hne
      | cons v hsh =>
        show (if v = P2PKH_ADDRESS_HEADER then Except.ok (some (build_p2pkh_output_script hsh))
          else if v = P2SH_ADDRESS_HEADER then Except.ok (some (build_p2sh_output_script hsh))
          else Except.ok (bech32_address_branch bech32_decode bad_address)) = .ok none
        have hv := hb v hsh hb58
        rw [if_neg hv.1, if_neg hv.2, bechnone]
  · intro he
    unfold build_output_script_from_address
    cases hb58 : b58decode_check bad_address with
    | none => rw [hb58] at he; cases he
    | some d =>
      rw [hb58, Option.some.injEq] at he
      subst he
      rfl
  · cases hdec : build_output_script_from_address b58decode_check bech32_decode address with
    | error u =>
      cases u
      have hrun : Transaction.build Cc S b58decode_check bech32_decode utxos
          address amount_in_sat = .error .index_error := by
        unfold Transaction.build
        rw [hdec]
      rw [hrun]
      constructor
      · intro _
        left
        intro script hc
        simp at hc
      · intro _
        rfl
    | ok o =>
      cases o with
      | none =>
        have hrun : Transaction.build Cc S b58decode_check bech32_decode utxos
            address amount_in_sat = .error .invalid_address := by
          unfold Transaction.build
          rw [hdec]
        rw [hrun]
        constructor
        · intro _
          left
          intro script hc
          simp at hc
        · intro _
          rfl
      | some script =>
        have hrun : Transaction.build Cc S b58decode_check bech32_decode utxos
            address amount_in_sat
            = if amount_in_sat < NON_SEGWIT_DUST then .error .dust
              else .ok (mk_transaction Cc S utxos script amount_in_sat) := by
          unfold Transaction.build
          rw [hdec]
        rw [hrun]
        by_cases hamt : amount_in_sat < NON_SEGWIT_DUST
        · rw [if_pos hamt]
          constructor
          · intro _
            right
            exact hamt
          · intro _
            rfl
        · rw [if_neg hamt]
          constructor
          · intro hc
            exact absurd hc (by simp [buildFailed])
          · rintro (hall | hlt)
            · exact absurd rfl (hall script)
            · exact absurd hlt hamt
  · intro hdec
    unfold Transaction.build
    rw [hdec]
  · intro hdec
    unfold Transaction.build
    rw [hdec]
  · intro script hdec hamt
    unfold Transaction.build
    rw [hdec]
    show (if amount_in_sat < NON_SEGWIT_DUST then Except.error TxError.dust
      else Except.ok (mk_transaction Cc S utxos script amount_in_sat)) = _
    rw [if_pos hamt]

/-- Witness for the amended C9 theorem with decoders that always fail: the
decoder returns None (and not the escaped-exception outcome). -/
theorem C9_construction_failure_and_address_decoding_amended_witness :
    build_output_script_from_address (fun _ : Nat => (none : Option (List Nat)))
      (fun _ => (none : Option (Nat × List Nat))) 1 = .ok none :=
  (C9_construction_failure_and_address_decoding_amended
    ⟨fun _ => [], fun _ => []⟩ ⟨fun _ => [], fun _ => [], fun _ _ => []⟩
    (fun _ => none) (fun _ => none) [] 0 1 0
    (fun v h hx => Option.noConfusion hx)
    (fun v h hx => Option.noConfusion hx)).1
    (fun hx => Option.noConfusion hx)

/-- Witness for the C10 theorem, at the Bitcoin Core template m/0'/0'/i'
with address_gap 1 and a concrete post-emission state. -/
theorem C10_fixed_account_path_probed_twice_witness :
    (DSI.init bitcoinCorePath 1 0).max_account = 0
    ∧ 1 ≤ (stepD (DSI.init brdExternalPath 1 0)).found_used_script.max_account
    ∧ bitcoinCorePath.with_account 5 = bitcoinCorePath
    ∧ (0, 0) :: (((stepD (DSI.init bitcoinCorePath 1 0)).found_used_script).runState
          ((1 + 1) * 2 - 1)).1 = diagEnum 1 1
    ∧ (1, 0) ∈ diagEnum 1 1
    ∧ (1, 1) ∈ diagEnum 1 1
    ∧ ((stepD (DSI.init bitcoinCorePath 1 0)).found_used_script).total_scripts = (1 + 1) * 2
    ∧ script_at ⟨fun _ => [], fun _ => []⟩ (fun _ => []) bitcoinCorePath ScriptType.LEGACY 1 7
        = script_at ⟨fun _ => [], fun _ => []⟩ (fun _ => []) bitcoinCorePath ScriptType.LEGACY 1 0 :=
  C10_fixed_account_path_probed_twice bitcoinCorePath 1 1 7 5
    ⟨fun _ => [], fun _ => []⟩ (fun _ => []) ScriptType.LEGACY
    (stepD (DSI.init brdExternalPath 1 0)) rfl rfl (by decide) rfl rfl

end Indy
